import Mathlib

/-! # Image-processing-app: rectangle algebra and grayscale image buffer

A shallow embedding of `Helper_Classes.h` (Point, Rectangle) and `Image.h`
(Size, Image) together with the properties proved about them.

Conventions of the embedding
* `int` is a mathematical integer kept in `[-2^31, 2^31)`; every `int`
  operation of the source is followed by `wrapI32` (two's complement
  wraparound).  `unsigned int` is a natural number below `2^32`; every
  `unsigned` operation is reduced modulo `2^32`.
* `unsigned char` is a natural number below `256`.
* A memory access outside an allocated buffer has no defined result, and an
  allocation can throw; the functions that allocate or access pixel memory
  return `Option`, with `none` standing for a call that does not return
  normally.
* `Image` holds its buffer by value, which suffices for what the operations
  compute; `ImagePtr` with `Heap` repeats allocation, release, copy and
  pixel access over an explicit free store, where sharing of buffers between
  objects can be expressed.
-/

namespace ImageApp

/-! ## Machine integers -/

/-- Two's complement reduction of a mathematical integer to `int`. -/
def wrapI32 (v : Int) : Int := (v + 2147483648) % 4294967296 - 2147483648

/-- Conversion of an `int` to `unsigned int` (reduction modulo `2^32`). -/
def toU32 (v : Int) : Nat := (v % 4294967296).toNat

/-- The cast `static_cast<int>(u)` of an `unsigned int`. -/
def castInt (u : Nat) : Int := wrapI32 (u : Int)

/-- Conversion of an `int` to `unsigned char` (reduction modulo `256`). -/
def toU8 (v : Int) : Nat := (v % 256).toNat

/-! ## Helper_Classes.h -/

/-- Class `Point`: two `int` coordinates. -/
structure Point where
  m_x : Int
  m_y : Int
  deriving DecidableEq, Repr

/-- Class `Rectangle`: `int` origin, `unsigned int` width and height. -/
structure Rectangle where
  m_x : Int
  m_y : Int
  m_width : Nat
  m_height : Nat
  deriving DecidableEq, Repr

/-- The values a `Rectangle` object can hold: fields within their C++ types. -/
def Rectangle.InRange (r : Rectangle) : Prop :=
  -2147483648 ≤ r.m_x ∧ r.m_x < 2147483648 ∧
  -2147483648 ≤ r.m_y ∧ r.m_y < 2147483648 ∧
  r.m_width < 4294967296 ∧ r.m_height < 4294967296

instance (r : Rectangle) : Decidable r.InRange := by
  unfold Rectangle.InRange; infer_instance

/-- The values a `Point` object can hold. -/
def Point.InRange (p : Point) : Prop :=
  -2147483648 ≤ p.m_x ∧ p.m_x < 2147483648 ∧
  -2147483648 ≤ p.m_y ∧ p.m_y < 2147483648

instance (p : Point) : Decidable p.InRange := by
  unfold Point.InRange; infer_instance

/-- Constructor `Rectangle(Point p1, Point p2)`: `abs` of the `int` difference,
then `static_cast<unsigned int>`. -/
def Rectangle.ofPoints (p1 p2 : Point) : Rectangle :=
  { m_x := p1.m_x
    m_y := p1.m_y
    m_width := toU32 (wrapI32 (Int.natAbs (wrapI32 (p2.m_x - p1.m_x)) : Int))
    m_height := toU32 (wrapI32 (Int.natAbs (wrapI32 (p2.m_y - p1.m_y)) : Int)) }

/-- Member `Rectangle::operator+(const Point&)`. -/
def Rectangle.opAdd (self : Rectangle) (p : Point) : Rectangle :=
  Rectangle.mk (wrapI32 (self.m_x + p.m_x)) (wrapI32 (self.m_y + p.m_y))
    self.m_width self.m_height

/-- Member `Rectangle::operator-(const Point&)`. -/
def Rectangle.opSub (self : Rectangle) (p : Point) : Rectangle :=
  Rectangle.mk (wrapI32 (self.m_x - p.m_x)) (wrapI32 (self.m_y - p.m_y))
    self.m_width self.m_height

/-- Member `Rectangle::operator&`: intersection. -/
def Rectangle.opAnd (self other : Rectangle) : Rectangle :=
  let newX := max self.m_x other.m_x
  let newY := max self.m_y other.m_y
  let x2 := min (wrapI32 (self.m_x + castInt self.m_width))
                (wrapI32 (other.m_x + castInt other.m_width))
  let y2 := min (wrapI32 (self.m_y + castInt self.m_height))
                (wrapI32 (other.m_y + castInt other.m_height))
  if newX < x2 ∧ newY < y2 then
    Rectangle.mk newX newY (toU32 (wrapI32 (x2 - newX))) (toU32 (wrapI32 (y2 - newY)))
  else
    Rectangle.mk 0 0 0 0

/-- Member `Rectangle::operator|`: union. -/
def Rectangle.opOr (self other : Rectangle) : Rectangle :=
  let newX := min self.m_x other.m_x
  let newY := min self.m_y other.m_y
  let x2 := max (wrapI32 (self.m_x + castInt self.m_width))
                (wrapI32 (other.m_x + castInt other.m_width))
  let y2 := max (wrapI32 (self.m_y + castInt self.m_height))
                (wrapI32 (other.m_y + castInt other.m_height))
  Rectangle.mk newX newY (toU32 (wrapI32 (x2 - newX))) (toU32 (wrapI32 (y2 - newY)))

/-- Rectangle `r` lies inside rectangle `c`, all four bounds compared as
mathematical integers. -/
def Rectangle.ContainedIn (r c : Rectangle) : Prop :=
  c.m_x ≤ r.m_x ∧ c.m_y ≤ r.m_y ∧
  r.m_x + (r.m_width : Int) ≤ c.m_x + (c.m_width : Int) ∧
  r.m_y + (r.m_height : Int) ≤ c.m_y + (c.m_height : Int)

instance (r c : Rectangle) : Decidable (r.ContainedIn c) := by
  unfold Rectangle.ContainedIn; infer_instance

/-- The integer point `(px, py)` lies in the half-open region
`[x, x+width) x [y, y+height)` of `r`. -/
def Rectangle.Covers (r : Rectangle) (px py : Int) : Prop :=
  r.m_x ≤ px ∧ px < r.m_x + (r.m_width : Int) ∧
  r.m_y ≤ py ∧ py < r.m_y + (r.m_height : Int)

instance (r : Rectangle) (px py : Int) : Decidable (r.Covers px py) := by
  unfold Rectangle.Covers; infer_instance

/-- The right and bottom edges `x + width`, `y + height` are representable
in `int`. -/
def Rectangle.EdgesFit (r : Rectangle) : Prop :=
  r.m_x + (r.m_width : Int) ≤ 2147483647 ∧ r.m_y + (r.m_height : Int) ≤ 2147483647

instance (r : Rectangle) : Decidable r.EdgesFit := by
  unfold Rectangle.EdgesFit; infer_instance

/-! ## Image.h -/

/-- Class `Size`: `unsigned int` width and height. -/
structure Size where
  width : Nat
  height : Nat
  deriving DecidableEq, Repr

/-- The counted loop `for (unsigned int i = 0; i < n; ++i) body(i)`, threading
the state through the iterations 0, 1, ..., n-1; an undefined step makes the
whole loop undefined. -/
def forLoop {σ : Type} (n : Nat) (body : Nat → σ → Option σ) (s : σ) : Option σ :=
  match n with
  | 0 => some s
  | k + 1 => (forLoop k body s).bind (body k)

/-- Class `Image`.  `m_data` is `none` for `nullptr`; otherwise it holds the
table of row buffers, each row buffer being the list of its samples. -/
structure Image where
  m_data : Option (List (List Nat))
  m_width : Nat
  m_height : Nat
  deriving DecidableEq, Repr

namespace Image

/-- Read of `m_data[y][x]`; `none` when there is no such element. -/
def get (self : Image) (y x : Nat) : Option Nat :=
  match self.m_data with
  | none => none
  | some rows =>
    match rows[y]? with
    | none => none
    | some r => r[x]?

/-- Write `m_data[y][x] = v` of an `unsigned char` value `v`; `none` when there
is no such element. -/
def set (self : Image) (y x : Nat) (v : Nat) : Option Image :=
  match self.m_data with
  | none => none
  | some rows =>
    match rows[y]? with
    | none => none
    | some r =>
      if x < r.length then
        some { self with m_data := some (rows.set y (r.set x v)) }
      else none

/-- Read of the `n` samples `m_data[i][0 .. n-1]` (the source range of
`std::copy` and of `ostream::write`). -/
def readRow (self : Image) (i n : Nat) : Option (List Nat) :=
  match self.m_data with
  | none => none
  | some rows =>
    match rows[i]? with
    | none => none
    | some r => if n ≤ r.length then some (r.take n) else none

/-- Write of the samples `bytes` to `m_data[i][0 .. bytes.length-1]` (the
destination range of `std::copy`, `std::fill` and `istream::read`). -/
def writeRow (self : Image) (i : Nat) (bytes : List Nat) : Option Image :=
  match self.m_data with
  | none => none
  | some rows =>
    match rows[i]? with
    | none => none
    | some r =>
      if bytes.length ≤ r.length then
        some { self with m_data := some (rows.set i (bytes ++ r.drop bytes.length)) }
      else none

/-- The value of an image after a successful allocation: `h` rows of `w`
zero samples. -/
def blank (w h : Nat) : Image :=
  { m_data := some (List.replicate h (List.replicate w 0)), m_width := w, m_height := h }

/-- Private member `allocateMemory`: a table of `m_height` row pointers, each
row allocated by `new unsigned char[m_width] {0}`.  That expression supplies
one initialiser, so for `m_width = 0` it throws `std::bad_array_new_length`:
the exception is raised as soon as there is a row to allocate, and `none`
stands for it. -/
def allocateMemory (self : Image) : Option Image :=
  if self.m_width = 0 ∧ 0 < self.m_height then none
  else some { self with
    m_data := some (List.replicate self.m_height (List.replicate self.m_width 0)) }

/-- Member `release`.  The loop deletes `m_data[i]` for every `i < m_height`,
which is defined only when the table has that many rows. -/
def release (self : Image) : Option Image :=
  match self.m_data with
  | some rows =>
    if self.m_height ≤ rows.length then
      some { m_data := none, m_width := 0, m_height := 0 }
    else none
  | none => some self

/-- Default constructor `Image()`. -/
def ctorDefault : Image := { m_data := none, m_width := 0, m_height := 0 }

/-- Constructor `Image(unsigned int w, unsigned int h)`. -/
def ctorSize (w h : Nat) : Option Image :=
  allocateMemory { m_data := none, m_width := w, m_height := h }

/-- Copy constructor `Image(const Image& other)`. -/
def ctorCopy (other : Image) : Option Image :=
  (allocateMemory
      { m_data := none, m_width := other.m_width, m_height := other.m_height }).bind
    (fun self => forLoop self.m_height
      (fun i s => (other.readRow i s.m_width).bind (fun bytes => s.writeRow i bytes)) self)

/-- Copy assignment `operator=` for a source object distinct from the
destination (the self-assignment branch returns `*this` unchanged and is not
reachable for a distinct source). -/
def opAssign (self other : Image) : Option Image :=
  self.release.bind (fun s1 =>
    (allocateMemory { s1 with m_width := other.m_width, m_height := other.m_height }).bind
      (fun s2 => forLoop s2.m_height
        (fun i s => (other.readRow i s.m_width).bind (fun bytes => s.writeRow i bytes)) s2))

/-- Member `operator+`: the local `result` after the two loops (returning it
by value hands the same value to the caller). -/
def opAdd (self img : Image) : Option Image :=
  (ctorSize self.m_width self.m_height).bind (fun result0 =>
    forLoop self.m_height
      (fun i result => forLoop self.m_width
        (fun j result => do
          let a ← self.get i j
          let b ← img.get i j
          result.set i j (toU8 (min 255 ((a : Int) + (b : Int)))))
        result)
      result0)

/-- Member `operator-`: the local `result` after the two loops. -/
def opSub (self img : Image) : Option Image :=
  (ctorSize self.m_width self.m_height).bind (fun result0 =>
    forLoop self.m_height
      (fun i result => forLoop self.m_width
        (fun j result => do
          let a ← self.get i j
          let b ← img.get i j
          result.set i j (toU8 (max 0 ((a : Int) - (b : Int)))))
        result)
      result0)

/-- Member `getROI(Image& roiImg, Rectangle roiRect)`, for an output object
distinct from `*this`.  The result is the returned boolean together with the
final value of `roiImg`.  `roiRect.m_x + j` and the bounds test are `unsigned
int` computations.  The temporary `Image(width, height)` is constructed first
and then assigned to `roiImg`. -/
def getROI (self roiImg : Image) (roiRect : Rectangle) : Option (Bool × Image) :=
  if (toU32 roiRect.m_x + roiRect.m_width) % 4294967296 > self.m_width ∨
     (toU32 roiRect.m_y + roiRect.m_height) % 4294967296 > self.m_height then
    some (false, roiImg)
  else do
    let tmp ← ctorSize roiRect.m_width roiRect.m_height
    let r0 ← roiImg.opAssign tmp
    let r ← forLoop roiRect.m_height
      (fun i r => forLoop roiRect.m_width
        (fun j r => do
          let v ← self.get ((toU32 roiRect.m_y + i) % 4294967296)
                           ((toU32 roiRect.m_x + j) % 4294967296)
          r.set i j v)
        r)
      r0
    some (true, r)

/-- Member `at(unsigned int x, unsigned int y)` used as a value: `m_data[y][x]`. -/
def atXY (self : Image) (x y : Nat) : Option Nat := self.get y x

/-- Assignment through the reference returned by `at(x, y)`. -/
def setAtXY (self : Image) (x y : Nat) (v : Nat) : Option Image := self.set y x v

/-- Member `getROI(Image& roiImg, unsigned x, unsigned y, unsigned width,
unsigned height)`, for an output object distinct from `*this`. -/
def getROIxy (self roiImg : Image) (x y width height : Nat) : Option (Bool × Image) :=
  if (x + width) % 4294967296 > self.m_width ∨
     (y + height) % 4294967296 > self.m_height then
    some (false, roiImg)
  else do
    let tmp ← ctorSize width height
    let r0 ← roiImg.opAssign tmp
    let r ← forLoop height
      (fun i r => forLoop width
        (fun j r => do
          let v ← self.atXY ((x + j) % 4294967296) ((y + i) % 4294967296)
          r.setAtXY j i v)
        r)
      r0
    some (true, r)

/-- Member `isEmpty`. -/
def isEmpty (self : Image) : Bool := self.m_data.isNone

/-- Member `size`. -/
def size (self : Image) : Size := Size.mk self.m_width self.m_height

/-- Member `width`. -/
def width (self : Image) : Nat := self.m_width

/-- Member `height`. -/
def height (self : Image) : Nat := self.m_height

/-- Static member `zeros`. -/
def zeros (width height : Nat) : Option Image := ctorSize width height

/-- Static member `ones`: every row filled with `255`. -/
def ones (width height : Nat) : Option Image :=
  (ctorSize width height).bind (fun img0 =>
    forLoop height
      (fun i img => img.writeRow i (List.replicate width (toU8 255)))
      img0)

end Image

/-! ## Binary streams used by `load` and `save`

A file is the list of its bytes.  The input stream keeps the unread bytes and
the two state bits that the extraction operations of `load` consult. -/

/-- Input file stream: unread bytes, `eofbit`, `failbit`. -/
structure IStream where
  buf : List Nat
  eofbit : Bool
  failbit : Bool
  deriving DecidableEq, Repr

/-- Whitespace test of the classic locale (`std::isspace`). -/
def isSpace (c : Nat) : Bool := c == 32 || (9 ≤ c && c ≤ 13)

/-- Decimal digit test. -/
def isDigit (c : Nat) : Bool := 48 ≤ c && c ≤ 57

/-- Value of a string of decimal digit characters. -/
def digitsValue (ds : List Nat) : Nat := ds.foldl (fun acc d => acc * 10 + (d - 48)) 0

/-- Decimal digit characters of `n`, most significant first, produced with at
most `fuel` digits. -/
def decimalFuel : Nat → Nat → List Nat
  | 0, _ => []
  | fuel + 1, n => if n < 10 then [48 + n] else decimalFuel fuel (n / 10) ++ [48 + n % 10]

/-- Output of `ostream << n` for an `unsigned int` (at most ten digits). -/
def decimal (n : Nat) : List Nat := decimalFuel 10 n

namespace IStream

/-- The sentry of a formatted extraction: a stream that is not good gets
`failbit`; otherwise leading whitespace is skipped, and running out of bytes
while skipping sets `eofbit` and `failbit`.  The boolean tells whether the
extraction may proceed. -/
def sentry (st : IStream) : IStream × Bool :=
  if st.eofbit || st.failbit then ({ st with failbit := true }, false)
  else
    let rest := st.buf.dropWhile isSpace
    if rest.isEmpty then ({ buf := [], eofbit := true, failbit := true }, false)
    else ({ st with buf := rest }, true)

/-- Extraction `file >> str` into an empty `std::string`: the maximal run of
non-whitespace bytes. -/
def readToken (st : IStream) : IStream × List Nat :=
  match st.sentry with
  | (st1, false) => (st1, [])
  | (st1, true) =>
    let tok := st1.buf.takeWhile (fun c => !isSpace c)
    let rest := st1.buf.dropWhile (fun c => !isSpace c)
    ({ buf := rest, eofbit := rest.isEmpty, failbit := tok.isEmpty }, tok)

/-- The characters a numeric extraction consumes: an optional sign and the
following run of digits.  Returns (negative, digits, unread bytes). -/
def scanNumber (b : List Nat) : Bool × List Nat × List Nat :=
  let signed := b.head? == some 45 || b.head? == some 43
  let afterSign := if signed then b.tail else b
  (b.head? == some 45, afterSign.takeWhile isDigit, afterSign.dropWhile isDigit)

/-- Extraction `file >> u` into an `unsigned int` holding `old`: a failed
sentry leaves `old`; no digits stores 0 and sets `failbit`; a magnitude above
`UINT_MAX` stores `UINT_MAX` and sets `failbit`; a minus sign negates modulo
`2^32`. -/
def readUnsigned (st : IStream) (old : Nat) : IStream × Nat :=
  match st.sentry with
  | (st1, false) => (st1, old)
  | (st1, true) =>
    match scanNumber st1.buf with
    | (neg, ds, rest) =>
      if ds.isEmpty then ({ buf := rest, eofbit := rest.isEmpty, failbit := true }, 0)
      else if digitsValue ds > 4294967295 then
        ({ buf := rest, eofbit := rest.isEmpty, failbit := true }, 4294967295)
      else
        ({ buf := rest, eofbit := rest.isEmpty, failbit := false },
          if neg then (4294967296 - digitsValue ds) % 4294967296 else digitsValue ds)

/-- Extraction `file >> i` into an `int` holding `old`: a failed sentry leaves
`old`; no digits stores 0 and sets `failbit`; a value outside `int` stores the
nearest bound and sets `failbit`. -/
def readInt (st : IStream) (old : Int) : IStream × Int :=
  match st.sentry with
  | (st1, false) => (st1, old)
  | (st1, true) =>
    match scanNumber st1.buf with
    | (neg, ds, rest) =>
      if ds.isEmpty then ({ buf := rest, eofbit := rest.isEmpty, failbit := true }, 0)
      else if neg then
        if digitsValue ds > 2147483648 then
          ({ buf := rest, eofbit := rest.isEmpty, failbit := true }, -2147483648)
        else ({ buf := rest, eofbit := rest.isEmpty, failbit := false }, -(digitsValue ds : Int))
      else
        if digitsValue ds > 2147483647 then
          ({ buf := rest, eofbit := rest.isEmpty, failbit := true }, 2147483647)
        else ({ buf := rest, eofbit := rest.isEmpty, failbit := false }, (digitsValue ds : Int))

/-- Call `file.ignore()`: discards one byte; on a stream that is not good it
only sets `failbit`, and at the end of the file it sets `eofbit`. -/
def ignore (st : IStream) : IStream :=
  if st.eofbit || st.failbit then { st with failbit := true }
  else
    match st.buf with
    | [] => { st with eofbit := true }
    | _ :: rest => { st with buf := rest }

/-- Call `file.read(p, n)`: the bytes stored at `p[0 ..]`.  On a stream that is
not good nothing is stored; fewer than `n` available bytes are all stored and
set `eofbit` and `failbit`. -/
def read (st : IStream) (n : Nat) : IStream × List Nat :=
  if st.eofbit || st.failbit then ({ st with failbit := true }, [])
  else if n ≤ st.buf.length then ({ st with buf := st.buf.drop n }, st.buf.take n)
  else ({ buf := [], eofbit := true, failbit := true }, st.buf)

end IStream

namespace Image

/-- Member `load`.  `file` is the content of the file at `imagePath`, `none`
when it cannot be opened; `maxVal0` is the indeterminate initial value of the
uninitialised local `maxVal`.  The result is the returned boolean together
with the final value of `*this`. -/
def load (self : Image) (file : Option (List Nat)) (maxVal0 : Int) : Option (Bool × Image) :=
  match file with
  | none => some (false, self)
  | some bytes =>
    let st0 : IStream := { buf := bytes, eofbit := false, failbit := false }
    let (st1, format) := st0.readToken
    if format ≠ [80, 53] then some (false, self)
    else
      let (st2, w) := st1.readUnsigned self.m_width
      let (st3, h) := st2.readUnsigned self.m_height
      let (st4, maxVal) := st3.readInt maxVal0
      let st5 := st4.ignore
      let self1 : Image := { self with m_width := w, m_height := h }
      if maxVal > 255 then some (false, self1)
      else
        self1.allocateMemory.bind (fun self2 =>
          (forLoop self2.m_height
            (fun i (p : IStream × Image) =>
              let (st, bytes) := p.1.read p.2.m_width
              (p.2.writeRow i bytes).map (fun img => (st, img)))
            (st5, self2)).map (fun p => (true, p.2)))

/-- Member `save`.  `canOpen` tells whether the output file can be opened; the
result is the returned boolean together with the bytes written to the file
(`none` when no file was opened). -/
def save (self : Image) (canOpen : Bool) : Option (Bool × Option (List Nat)) :=
  if !canOpen then some (false, none)
  else
    let header := [80, 53, 10] ++ decimal self.m_width ++ [32] ++ decimal self.m_height
      ++ [10, 50, 53, 53, 10]
    (forLoop self.m_height
      (fun i out => (self.readRow i self.m_width).map (fun bytes => out ++ bytes))
      header).map (fun out => (true, some out))

end Image

/-- The row table has `h` rows of `w` samples each. -/
def RowsShape (rows : List (List Nat)) (w h : Nat) : Prop :=
  rows.length = h ∧ ∀ r ∈ rows, r.length = w

instance (rows : List (List Nat)) (w h : Nat) : Decidable (RowsShape rows w h) := by
  unfold RowsShape; infer_instance

/-- Every sample of the row table is an `unsigned char` value. -/
def RowsBytes (rows : List (List Nat)) : Prop :=
  ∀ r ∈ rows, ∀ v ∈ r, v < 256

instance (rows : List (List Nat)) : Decidable (RowsBytes rows) := by
  unfold RowsBytes; infer_instance

/-- Representation invariant of an `Image` object: the dimensions are
`unsigned int` values and either the buffer is null with zero dimensions, or
the buffer has `m_height` rows of `m_width` samples, each an `unsigned char`.
No row has zero samples, since `allocateMemory` cannot allocate such a row. -/
def Image.WF (A : Image) : Prop :=
  A.m_width < 4294967296 ∧ A.m_height < 4294967296 ∧
  (A.m_width = 0 → A.m_height = 0) ∧
  match A.m_data with
  | none => A.m_width = 0 ∧ A.m_height = 0
  | some rows => RowsShape rows A.m_width A.m_height ∧ RowsBytes rows

instance (A : Image) : Decidable A.WF := by
  unfold Image.WF
  cases A.m_data <;> infer_instance

/-- The image has dimensions `(w, h)` and an allocated buffer of `h` rows of
`w` samples. -/
def Image.Shape (s : Image) (w h : Nat) : Prop :=
  s.m_width = w ∧ s.m_height = h ∧ ∃ rows, s.m_data = some rows ∧ RowsShape rows w h

/-- The 2x2 image with samples [[10,20],[30,40]]. -/
def sampleImage : Image :=
  { m_data := some [[10, 20], [30, 40]], m_width := 2, m_height := 2 }

/-! ## Reachable image values -/

/-- Image values obtainable through the public operations: the constructors,
copy construction and assignment, `zeros`, `ones`, the output of `getROI`,
`release`, and, when `withLoad` is set, `load` (whether it succeeds or fails). -/
inductive Image.Reach (withLoad : Bool) : Image → Prop
  | default : Image.Reach withLoad Image.ctorDefault
  | sized (w h : Nat) (R : Image) : w < 4294967296 → h < 4294967296 →
      Image.ctorSize w h = some R → Image.Reach withLoad R
  | copy (A B : Image) : Image.Reach withLoad A → Image.ctorCopy A = some B →
      Image.Reach withLoad B
  | assign (A B C : Image) : Image.Reach withLoad A → Image.Reach withLoad B →
      A.opAssign B = some C → Image.Reach withLoad C
  | zeros (w h : Nat) (R : Image) : w < 4294967296 → h < 4294967296 →
      Image.zeros w h = some R → Image.Reach withLoad R
  | ones (w h : Nat) (R : Image) : w < 4294967296 → h < 4294967296 →
      Image.ones w h = some R → Image.Reach withLoad R
  | roi (A out R : Image) (r : Rectangle) (b : Bool) : Image.Reach withLoad A →
      Image.Reach withLoad out → r.InRange → A.getROI out r = some (b, R) →
      Image.Reach withLoad R
  | roixy (A out R : Image) (x y w h : Nat) (b : Bool) : Image.Reach withLoad A →
      Image.Reach withLoad out → x < 4294967296 → y < 4294967296 → w < 4294967296 →
      h < 4294967296 → A.getROIxy out x y w h = some (b, R) → Image.Reach withLoad R
  | release (A R : Image) : Image.Reach withLoad A → A.release = some R →
      Image.Reach withLoad R
  | load (A R : Image) (file : Option (List Nat)) (maxVal0 : Int) (b : Bool) :
      withLoad = true → Image.Reach withLoad A → A.load file maxVal0 = some (b, R) →
      Image.Reach withLoad R

/-! ## Pointer-level model of the image buffer

For the ownership properties the free store is made explicit: an image object
holds a pointer to a table of row pointers, and two objects may or may not
point to the same blocks. -/

/-- The free store: row buffers (`unsigned char[]`) and row-pointer tables
(`unsigned char*[]`), each addressed by its allocation index; a deleted block
is `none`. -/
structure Heap where
  bufs : List (Option (List Nat))
  tables : List (Option (List Nat))
  deriving DecidableEq, Repr

/-- An `Image` object whose `m_data` is a pointer into the free store, `none`
for `nullptr`. -/
structure ImagePtr where
  m_data : Option Nat
  m_width : Nat
  m_height : Nat
  deriving DecidableEq, Repr

namespace Heap

/-- Read of the row pointer `table[i]` of the table at address `t`. -/
def rowPtr (H : Heap) (t i : Nat) : Option Nat :=
  match H.tables[t]? with
  | some (some tbl) => tbl[i]?
  | _ => none

/-- Length of the live row buffer at address `a`. -/
def bufLen (H : Heap) (a : Nat) : Option Nat :=
  match H.bufs[a]? with
  | some (some r) => some r.length
  | _ => none

/-- Read of the sample `buf[j]` of the row buffer at address `a`. -/
def readByte (H : Heap) (a j : Nat) : Option Nat :=
  match H.bufs[a]? with
  | some (some r) => r[j]?
  | _ => none

/-- Write `buf[j] = v` into the row buffer at address `a`. -/
def writeByte (H : Heap) (a j v : Nat) : Option Heap :=
  match H.bufs[a]? with
  | some (some r) =>
    if j < r.length then some { H with bufs := H.bufs.set a (some (r.set j v)) } else none
  | _ => none

/-- Read of the `n` samples `buf[0 .. n-1]` of the row buffer at address `a`. -/
def readBuf (H : Heap) (a n : Nat) : Option (List Nat) :=
  match H.bufs[a]? with
  | some (some r) => if n ≤ r.length then some (r.take n) else none
  | _ => none

/-- Write of `bytes` to `buf[0 .. bytes.length-1]` of the row buffer at
address `a`. -/
def writeBuf (H : Heap) (a : Nat) (bytes : List Nat) : Option Heap :=
  match H.bufs[a]? with
  | some (some r) =>
    if bytes.length ≤ r.length then
      some { H with bufs := H.bufs.set a (some (bytes ++ r.drop bytes.length)) }
    else none
  | _ => none

/-- Expression `delete[] p` for the row buffer at address `a`. -/
def freeBuf (H : Heap) (a : Nat) : Option Heap :=
  match H.bufs[a]? with
  | some (some _) => some { H with bufs := H.bufs.set a none }
  | _ => none

/-- Expression `delete[] p` for the row-pointer table at address `t`. -/
def freeTable (H : Heap) (t : Nat) : Option Heap :=
  match H.tables[t]? with
  | some (some _) => some { H with tables := H.tables.set t none }
  | _ => none

end Heap

namespace ImagePtr

/-- Private member `allocateMemory` on the free store: a new table and
`m_height` new zero-initialised rows of `m_width` samples, at addresses not
used before.  As in `Image.allocateMemory`, the allocation of a row of zero
samples throws, and `none` stands for the exception. -/
def allocateMemory (self : ImagePtr) (H : Heap) : Option (ImagePtr × Heap) :=
  if self.m_width = 0 ∧ 0 < self.m_height then none
  else some
    ({ self with m_data := some H.tables.length },
     { bufs := H.bufs ++ List.replicate self.m_height (some (List.replicate self.m_width 0)),
       tables := H.tables ++
         [some ((List.range self.m_height).map (fun i => H.bufs.length + i))] })

/-- Member `release` on the free store. -/
def release (self : ImagePtr) (H : Heap) : Option (ImagePtr × Heap) :=
  match self.m_data with
  | none => some (self, H)
  | some t =>
    (forLoop self.m_height (fun i H => (H.rowPtr t i).bind (fun a => H.freeBuf a)) H).bind
      (fun H1 => (H1.freeTable t).map
        (fun H2 => ({ m_data := none, m_width := 0, m_height := 0 }, H2)))

/-- The loop `for i < m_height: copy(other.m_data[i], other.m_data[i] +
m_width, m_data[i])` shared by the copy constructor and copy assignment. -/
def copyRows (self other : ImagePtr) (H : Heap) : Option Heap :=
  forLoop self.m_height
    (fun i H => do
      let srcTable ← other.m_data
      let src ← H.rowPtr srcTable i
      let dstTable ← self.m_data
      let dst ← H.rowPtr dstTable i
      let bytes ← H.readBuf src self.m_width
      H.writeBuf dst bytes)
    H

/-- Copy constructor `Image(const Image& other)` on the free store. -/
def ctorCopy (other : ImagePtr) (H : Heap) : Option (ImagePtr × Heap) :=
  (allocateMemory
      { m_data := none, m_width := other.m_width, m_height := other.m_height } H).bind
    (fun p => (copyRows p.1 other p.2).map (fun H2 => (p.1, H2)))

/-- Copy assignment `operator=` on the free store, for a source object
distinct from the destination object. -/
def opAssign (self other : ImagePtr) (H : Heap) : Option (ImagePtr × Heap) :=
  (self.release H).bind (fun q =>
    (allocateMemory
        { q.1 with m_width := other.m_width, m_height := other.m_height } q.2).bind
      (fun p => (copyRows p.1 other p.2).map (fun H3 => (p.1, H3))))

/-- Read through `at(x, y)`: `m_data[y][x]`. -/
def atRead (self : ImagePtr) (H : Heap) (x y : Nat) : Option Nat := do
  let t ← self.m_data
  let a ← H.rowPtr t y
  H.readByte a x

/-- Write through `at(x, y)`: `m_data[y][x] = v`. -/
def atWrite (self : ImagePtr) (H : Heap) (x y v : Nat) : Option Heap := do
  let t ← self.m_data
  let a ← H.rowPtr t y
  H.writeByte a x v

/-- The object owns, in `H`, the live table at address `t` whose entries `tbl`
are distinct live rows of `m_width` samples, one per image row; no row has
zero samples, since `allocateMemory` cannot allocate such a row. -/
def Owns (self : ImagePtr) (H : Heap) (t : Nat) (tbl : List Nat) : Prop :=
  self.m_data = some t ∧ H.tables[t]? = some (some tbl) ∧ tbl.length = self.m_height ∧
  tbl.Nodup ∧ (self.m_width = 0 → self.m_height = 0) ∧
  ∀ a ∈ tbl, H.bufLen a = some self.m_width

instance (self : ImagePtr) (H : Heap) (t : Nat) (tbl : List Nat) :
    Decidable (self.Owns H t tbl) := by
  unfold Owns; infer_instance

/-- Writing any in-range pixel through `B` is defined, stores the value, and
leaves every sample read through `A` as it was. -/
def IsolatedFrom (A B : ImagePtr) (H : Heap) : Prop :=
  ∀ x y v, x < B.m_width → y < B.m_height →
    ∃ H2, B.atWrite H x y v = some H2 ∧ B.atRead H2 x y = some v ∧
      ∀ x' y', A.atRead H2 x' y' = A.atRead H x' y'

/-- In the store `H1`, `B` is an independent copy of what `A` held in `H`:
same width and height, the same sample at every position (with `A` itself
unchanged), and pixel writes through either object invisible through the
other. -/
def DeepCopy (A : ImagePtr) (H : Heap) (B : ImagePtr) (H1 : Heap) : Prop :=
  B.m_width = A.m_width ∧ B.m_height = A.m_height ∧
  (∀ x y, x < A.m_width → y < A.m_height →
    ∃ v, A.atRead H x y = some v ∧ A.atRead H1 x y = some v ∧ B.atRead H1 x y = some v) ∧
  IsolatedFrom A B H1 ∧ IsolatedFrom B A H1

end ImagePtr

/-- The free store holding only the 2x2 image [[10,20],[30,40]]. -/
def sampleHeap : Heap :=
  { bufs := [some [10, 20], some [30, 40]], tables := [some [0, 1]] }

/-- The image object that owns the buffer of `sampleHeap`. -/
def sampleImagePtr : ImagePtr := { m_data := some 0, m_width := 2, m_height := 2 }

/-! ## Rectangle theorems -/

/-- C4: a non-empty intersection `a & b` lies inside both `a` and `b`. -/
theorem Rectangle.opAnd_containedIn (a b : Rectangle) (ha : a.InRange) (hb : b.InRange)
    (hne : 0 < (a.opAnd b).m_width ∧ 0 < (a.opAnd b).m_height) :
    (a.opAnd b).ContainedIn a ∧ (a.opAnd b).ContainedIn b := by
  obtain ⟨ax, ay, aw, ah⟩ := a
  obtain ⟨bx, bY, bw, bh⟩ := b
  simp only [Rectangle.InRange] at ha hb
  simp only [Rectangle.opAnd, Rectangle.ContainedIn, castInt, wrapI32, toU32] at hne ⊢
  split_ifs at hne ⊢ with hc
  · simp only at hne ⊢
    omega
  · simp at hne

/-- Witness for C4 on the rectangles (0,0,10,10) and (5,5,10,10). -/
theorem Rectangle.opAnd_containedIn_witness :
    ((Rectangle.mk 0 0 10 10).opAnd (Rectangle.mk 5 5 10 10)).ContainedIn (Rectangle.mk 0 0 10 10) ∧
    ((Rectangle.mk 0 0 10 10).opAnd (Rectangle.mk 5 5 10 10)).ContainedIn (Rectangle.mk 5 5 10 10) :=
  Rectangle.opAnd_containedIn (Rectangle.mk 0 0 10 10) (Rectangle.mk 5 5 10 10)
    (by decide) (by decide) (by decide)

/-- C5 fails on the code: `operator|` is documented as returning the smallest
rectangle that contains both operands, but it takes the right edge of
a = (0,0,4294967295,1) through `static_cast<int>(m_width)`, which is -1; with
b = (0,0,1,1) the union is (0,0,1,1), which does not contain a, although the
rectangle (0,0,4294967295,1) that does is representable. -/
theorem Rectangle.opOr_not_contains :
    (Rectangle.mk 0 0 4294967295 1).InRange ∧ (Rectangle.mk 0 0 1 1).InRange ∧
    (Rectangle.mk 0 0 4294967295 1).opOr (Rectangle.mk 0 0 1 1) = Rectangle.mk 0 0 1 1 ∧
    ¬ (Rectangle.mk 0 0 4294967295 1).ContainedIn
        ((Rectangle.mk 0 0 4294967295 1).opOr (Rectangle.mk 0 0 1 1)) := by
  decide

/-- Containment in the union where no cast wraps: when the right and bottom
edges of `a` and `b` are representable in `int`, the union `a | b` contains
both `a` and `b`. -/
theorem Rectangle.opOr_contains (a b : Rectangle) (ha : a.InRange) (hb : b.InRange)
    (hea : a.EdgesFit) (heb : b.EdgesFit) :
    a.ContainedIn (a.opOr b) ∧ b.ContainedIn (a.opOr b) := by
  obtain ⟨ax, ay, aw, ah⟩ := a
  obtain ⟨bx, bY, bw, bh⟩ := b
  simp only [Rectangle.InRange, Rectangle.EdgesFit] at ha hb hea heb
  simp only [Rectangle.opOr, Rectangle.ContainedIn, castInt, wrapI32, toU32]
  omega

/-- The union of (0,0,10,10) and (5,5,10,10) is (0,0,15,15) and contains
both. -/
theorem Rectangle.opOr_contains_witness :
    (Rectangle.mk 0 0 10 10).opOr (Rectangle.mk 5 5 10 10) = Rectangle.mk 0 0 15 15 ∧
    (Rectangle.mk 0 0 10 10).ContainedIn ((Rectangle.mk 0 0 10 10).opOr (Rectangle.mk 5 5 10 10)) ∧
    (Rectangle.mk 5 5 10 10).ContainedIn ((Rectangle.mk 0 0 10 10).opOr (Rectangle.mk 5 5 10 10)) :=
  ⟨by decide, Rectangle.opOr_contains (Rectangle.mk 0 0 10 10) (Rectangle.mk 5 5 10 10)
    (by decide) (by decide) (by decide) (by decide)⟩

/-- C6: rectangles that share no integer point (in particular rectangles that
only touch, `a.x + a.width = b.x`) intersect to the canonical empty rectangle
(0,0,0,0); (0,0,10,10) & (20,20,5,5) is (0,0,0,0) and (0,0,10,10) & (5,5,10,10)
is (5,5,5,5). -/
theorem Rectangle.opAnd_disjoint (a b : Rectangle) (ha : a.InRange) (hb : b.InRange)
    (hdis : (∀ px py : Int, ¬ (a.Covers px py ∧ b.Covers px py)) ∨
            a.m_x + (a.m_width : Int) = b.m_x) :
    a.opAnd b = Rectangle.mk 0 0 0 0 ∧
    (a.opAnd b).m_width = 0 ∧ (a.opAnd b).m_height = 0 ∧
    (Rectangle.mk 0 0 10 10).opAnd (Rectangle.mk 20 20 5 5) = Rectangle.mk 0 0 0 0 ∧
    (Rectangle.mk 0 0 10 10).opAnd (Rectangle.mk 5 5 10 10) = Rectangle.mk 5 5 5 5 := by
  have key : a.opAnd b = Rectangle.mk 0 0 0 0 := by
    obtain ⟨ax, ay, aw, ah⟩ := a
    obtain ⟨bx, bY, bw, bh⟩ := b
    simp only [Rectangle.InRange] at ha hb
    simp only [Rectangle.Covers] at hdis
    simp only [Rectangle.opAnd, castInt, wrapI32]
    split_ifs with hc
    · exfalso
      rcases hdis with hdis | hdis
      · apply hdis (max ax bx) (max ay bY)
        omega
      · omega
    · rfl
  refine ⟨key, ?_, ?_, by decide, by decide⟩
  · rw [key]
  · rw [key]

/-- Witness for C6 on the touching rectangles (0,0,10,10) and (10,0,5,5). -/
theorem Rectangle.opAnd_disjoint_witness :
    (Rectangle.mk 0 0 10 10).opAnd (Rectangle.mk 10 0 5 5) = Rectangle.mk 0 0 0 0 :=
  (Rectangle.opAnd_disjoint (Rectangle.mk 0 0 10 10) (Rectangle.mk 10 0 5 5)
    (by decide) (by decide) (Or.inr (by decide))).1

/-- C7: intersection and union are commutative, field by field. -/
theorem Rectangle.opAnd_opOr_comm (a b : Rectangle) :
    ((a.opAnd b).m_x = (b.opAnd a).m_x ∧ (a.opAnd b).m_y = (b.opAnd a).m_y ∧
      (a.opAnd b).m_width = (b.opAnd a).m_width ∧
      (a.opAnd b).m_height = (b.opAnd a).m_height) ∧
    ((a.opOr b).m_x = (b.opOr a).m_x ∧ (a.opOr b).m_y = (b.opOr a).m_y ∧
      (a.opOr b).m_width = (b.opOr a).m_width ∧
      (a.opOr b).m_height = (b.opOr a).m_height) := by
  have h1 : a.opAnd b = b.opAnd a := by
    simp only [Rectangle.opAnd]
    rw [max_comm a.m_x, max_comm a.m_y,
      min_comm (wrapI32 (a.m_x + castInt a.m_width)),
      min_comm (wrapI32 (a.m_y + castInt a.m_height))]
  have h2 : a.opOr b = b.opOr a := by
    simp only [Rectangle.opOr]
    rw [min_comm a.m_x, min_comm a.m_y,
      max_comm (wrapI32 (a.m_x + castInt a.m_width)),
      max_comm (wrapI32 (a.m_y + castInt a.m_height))]
  rw [h1, h2]
  simp

/-! ## Loop and buffer lemmas -/

/-- Invariant rule for `forLoop`: an invariant that every iteration
re-establishes holds after the loop, and the loop is defined. -/
theorem forLoop_inv {σ : Type} (Inv : Nat → σ → Prop) (n : Nat)
    (body : Nat → σ → Option σ) (s : σ) (h0 : Inv 0 s)
    (hstep : ∀ k, k < n → ∀ t, Inv k t → ∃ t', body k t = some t' ∧ Inv (k + 1) t') :
    ∃ t, forLoop n body s = some t ∧ Inv n t := by
  induction n with
  | zero => exact ⟨s, rfl, h0⟩
  | succ m ih =>
    obtain ⟨t, ht, hinv⟩ := ih (fun k hk => hstep k (Nat.lt_succ_of_lt hk))
    obtain ⟨t', ht', hinv'⟩ := hstep m (Nat.lt_succ_self m) t hinv
    exact ⟨t', by simp [forLoop, ht, ht'], hinv'⟩

theorem Image.blank_shape (w h : Nat) : (Image.blank w h).Shape w h := by
  refine ⟨rfl, rfl, _, rfl, ?_, ?_⟩
  · simp
  · intro r hr
    rw [List.mem_replicate] at hr
    rw [hr.2]
    simp

theorem Image.blank_get (w h i j : Nat) (hi : i < h) (hj : j < w) :
    (Image.blank w h).get i j = some 0 := by
  simp [Image.blank, Image.get, hi, hj]

/-- Allocation succeeds, with a blank buffer, unless it has to allocate a row
of zero samples. -/
theorem Image.allocateMemory_eq (d : Option (List (List Nat))) (w h : Nat)
    (hwh : w = 0 → h = 0) :
    Image.allocateMemory { m_data := d, m_width := w, m_height := h }
      = some (Image.blank w h) := by
  have hc : ¬ (w = 0 ∧ 0 < h) := by
    intro hc
    have := hwh hc.1
    omega
  simp only [Image.allocateMemory, if_neg hc, Image.blank]

theorem Image.ctorSize_eq (w h : Nat) (hwh : w = 0 → h = 0) :
    Image.ctorSize w h = some (Image.blank w h) :=
  Image.allocateMemory_eq none w h hwh

/-- Allocation of a row of zero samples throws. -/
theorem Image.allocateMemory_none (d : Option (List (List Nat))) (h : Nat) (hh : 0 < h) :
    Image.allocateMemory { m_data := d, m_width := 0, m_height := h } = none := by
  simp [Image.allocateMemory, hh]

/-- A successful allocation leaves a non-null buffer and keeps the
dimensions. -/
theorem Image.allocateMemory_data (s t : Image) (h : s.allocateMemory = some t) :
    t.m_data ≠ none ∧ t.m_width = s.m_width ∧ t.m_height = s.m_height := by
  simp only [Image.allocateMemory] at h
  split at h
  · exact Option.noConfusion h
  · rw [← Option.some.inj h]
    exact ⟨by simp, rfl, rfl⟩

/-- Release of a well-formed image is defined. -/
theorem Image.WF.release_some {A : Image} (hA : A.WF) : ∃ q, A.release = some q := by
  obtain ⟨_, _, _, h3⟩ := hA
  cases hd : A.m_data with
  | none => exact ⟨A, by simp [Image.release, hd]⟩
  | some rows =>
    rw [hd] at h3
    have hlen : A.m_height ≤ rows.length := by rw [h3.1.1]
    exact ⟨{ m_data := none, m_width := 0, m_height := 0 },
      by simp only [Image.release, hd, if_pos hlen]⟩

/-- In-range pixel write: defined, shape-preserving, and changing exactly the
addressed sample. -/
theorem Image.set_spec (s : Image) (w h i j v : Nat) (hs : s.Shape w h)
    (hi : i < h) (hj : j < w) :
    ∃ t, s.set i j v = some t ∧ t.Shape w h ∧ t.get i j = some v ∧
      ∀ i' j', (i' ≠ i ∨ j' ≠ j) → t.get i' j' = s.get i' j' := by
  obtain ⟨hw, hh, rows, hrows, hlen, hall⟩ := hs
  have hi' : i < rows.length := by omega
  have hr : rows[i]? = some rows[i] := List.getElem?_eq_getElem hi'
  have hrl : (rows[i]).length = w := hall _ (List.getElem_mem hi')
  refine ⟨{ s with m_data := some (rows.set i ((rows[i]).set j v)) }, ?_, ?_, ?_, ?_⟩
  · simp [Image.set, hrows, hr, hrl, hj]
  · refine ⟨hw, hh, _, rfl, ?_, ?_⟩
    · simp [hlen]
    · intro r hmem
      rcases List.mem_or_eq_of_mem_set hmem with h1 | h1
      · exact hall r h1
      · rw [h1]; simp [hrl]
  · simp [Image.get, hi', hrl, hj]
  · intro i' j' hne
    by_cases hii : i' = i
    · subst hii
      have hjj : j' ≠ j := by
        rcases hne with h1 | h1
        · exact absurd rfl h1
        · exact h1
      simp [Image.get, hrows, hi', List.getElem?_set_ne (Ne.symm hjj)]
    · simp [Image.get, hrows, List.getElem?_set_ne (Ne.symm hii)]

/-- In-range pixel read of a shaped image is defined. -/
theorem Image.get_some (s : Image) (w h i j : Nat) (hs : s.Shape w h)
    (hi : i < h) (hj : j < w) : ∃ v, s.get i j = some v := by
  obtain ⟨_, _, rows, hrows, hlen, hall⟩ := hs
  have hi' : i < rows.length := by omega
  have hrl : (rows[i]).length = w := hall _ (List.getElem_mem hi')
  exact ⟨(rows[i])[j], by simp [Image.get, hrows, hi', hrl, hj]⟩

/-- The nested loops `for i < h, for j < w: r[i][j] = g i j` over a shaped
image are defined, keep the shape, and leave `g i j` at every position. -/
theorem fill_spec (w h : Nat) (g : Nat → Nat → Nat)
    (body : Nat → Nat → Image → Option Image)
    (hbody : ∀ i j r, i < h → j < w → body i j r = r.set i j (g i j))
    (s : Image) (hs : s.Shape w h) :
    ∃ t, forLoop h (fun i r => forLoop w (fun j r => body i j r) r) s = some t ∧
      t.Shape w h ∧ ∀ i j, i < h → j < w → t.get i j = some (g i j) := by
  have outer := forLoop_inv
    (fun i (r : Image) => r.Shape w h ∧ ∀ i' j', i' < i → j' < w → r.get i' j' = some (g i' j'))
    h (fun i r => forLoop w (fun j r => body i j r) r) s
    ⟨hs, fun i' j' hi' _ => absurd hi' (Nat.not_lt_zero _)⟩
    (by
      intro i hi r ⟨hr, hdone⟩
      have inner := forLoop_inv
        (fun j (q : Image) => q.Shape w h ∧
          (∀ i' j', i' < i → j' < w → q.get i' j' = some (g i' j')) ∧
          (∀ j', j' < j → q.get i j' = some (g i j')))
        w (fun j r => body i j r) r
        ⟨hr, hdone, fun j' hj' => absurd hj' (Nat.not_lt_zero _)⟩
        (by
          intro j hj q ⟨hq, hrowsdone, hcolsdone⟩
          obtain ⟨t, ht, hts, htget, htother⟩ := Image.set_spec q w h i j (g i j) hq hi hj
          refine ⟨t, (hbody i j q hi hj).trans ht, hts, ?_, ?_⟩
          · intro i' j' hi' hj'
            rw [htother i' j' (Or.inl (by omega))]
            exact hrowsdone i' j' hi' hj'
          · intro j' hj'
            by_cases hjj : j' = j
            · rw [hjj]; exact htget
            · rw [htother i j' (Or.inr hjj)]
              exact hcolsdone j' (by omega))
      obtain ⟨t, ht, hts, hrowsdone, hcolsdone⟩ := inner
      refine ⟨t, ht, hts, ?_⟩
      intro i' j' hi' hj'
      by_cases hii : i' = i
      · rw [hii]; exact hcolsdone j' hj'
      · exact hrowsdone i' j' (by omega) hj')
  obtain ⟨t, ht, hts, hget⟩ := outer
  exact ⟨t, ht, hts, fun i j hi hj => hget i j hi hj⟩

/-- A well-formed image with an allocated buffer is shaped. -/
theorem Image.WF.shape_of_some {A : Image} (hA : A.WF) {rows : List (List Nat)}
    (hrows : A.m_data = some rows) : A.Shape A.m_width A.m_height := by
  obtain ⟨_, _, _, h3⟩ := hA
  rw [hrows] at h3
  exact ⟨rfl, rfl, rows, hrows, h3.1⟩

/-- In-range pixel read of a well-formed image: defined and a byte. -/
theorem Image.WF.get_lt {A : Image} (hA : A.WF) (i j : Nat)
    (hi : i < A.m_height) (hj : j < A.m_width) : ∃ v, A.get i j = some v ∧ v < 256 := by
  obtain ⟨_, _, _, h3⟩ := hA
  cases hd : A.m_data with
  | none =>
    rw [hd] at h3
    omega
  | some rows =>
    rw [hd] at h3
    obtain ⟨⟨hlen, hall⟩, hbytes⟩ := h3
    have hi' : i < rows.length := by omega
    have hrl : (rows[i]).length = A.m_width := hall _ (List.getElem_mem hi')
    have hj' : j < (rows[i]).length := by omega
    refine ⟨(rows[i])[j], by simp [Image.get, hd, hi', hj'], ?_⟩
    exact hbytes _ (List.getElem_mem hi') _ (List.getElem_mem hj')

/-- The row-copy loop shared by the copy constructor and copy assignment:
over a destination of the same shape it is defined and leaves the source's
row table in the destination. -/
theorem copyRows_spec (other s : Image) (w h : Nat) (ho : other.Shape w h)
    (hs : s.Shape w h) :
    ∃ t, forLoop h
        (fun i s => (other.readRow i s.m_width).bind (fun bytes => s.writeRow i bytes)) s
          = some t ∧ t.Shape w h ∧ t.m_data = other.m_data := by
  obtain ⟨how, hoh, ro, hro, hrolen, hroall⟩ := ho
  have loop := forLoop_inv
    (fun k (q : Image) => q.Shape w h ∧
      ∃ rq, q.m_data = some rq ∧ ∀ i, i < k → rq[i]? = ro[i]?)
    h (fun i s => (other.readRow i s.m_width).bind (fun bytes => s.writeRow i bytes)) s
    ⟨hs, by
      obtain ⟨_, _, rq, hrq, _⟩ := hs
      exact ⟨rq, hrq, fun i hi => absurd hi (Nat.not_lt_zero _)⟩⟩
    (by
      intro k hk q ⟨hq, rq, hrq, hsame⟩
      obtain ⟨hqw, hqh, rq', hrq', hrqlen, hrqall⟩ := hq
      rw [hrq] at hrq'
      cases hrq'
      have hko : k < ro.length := by omega
      have hkq : k < rq.length := by omega
      have hol : (ro[k]).length = w := hroall _ (List.getElem_mem hko)
      have hql : (rq[k]).length = w := hrqall _ (List.getElem_mem hkq)
      have hread : other.readRow k q.m_width = some ro[k] := by
        simp [Image.readRow, hro, hko, hqw, hol, List.take_of_length_le (Nat.le_of_eq hol)]
      have hdrop : List.drop w rq[k] = [] := by
        rw [List.drop_eq_nil_iff]; omega
      refine ⟨{ q with m_data := some (rq.set k ro[k]) }, ?_, ⟨hqw, hqh, _, rfl, ?_, ?_⟩,
        _, rfl, ?_⟩
      · simp [hread, Image.writeRow, hrq, hkq, hol, hql, hdrop]
      · simp [hrqlen]
      · intro r hmem
        rcases List.mem_or_eq_of_mem_set hmem with h1 | h1
        · exact hrqall r h1
        · rw [h1]; exact hol
      · intro i hi
        by_cases hik : i = k
        · subst hik
          simp [hkq, hko]
        · rw [List.getElem?_set_ne (Ne.symm hik)]
          exact hsame i (by omega))
  obtain ⟨t, ht, hts, rq, hrq, hsame⟩ := loop
  refine ⟨t, ht, hts, ?_⟩
  rw [hrq, hro]
  congr 1
  obtain ⟨_, _, rq', hrq', hrqlen, _⟩ := hts
  rw [hrq] at hrq'
  cases hrq'
  apply List.ext_getElem?
  intro n
  by_cases hn : n < h
  · exact hsame n hn
  · rw [List.getElem?_eq_none (by omega), List.getElem?_eq_none (by omega)]

/-- Copy assignment from a shaped source without zero-sample rows, onto a
destination whose release is defined, yields exactly the source value. -/
theorem Image.opAssign_spec (self other : Image) (w h : Nat) (ho : other.Shape w h)
    (hwh : w = 0 → h = 0) (hrel : ∃ q, self.release = some q) :
    self.opAssign other = some other := by
  have hw := ho.1
  have hh := ho.2.1
  subst hw
  subst hh
  obtain ⟨q, hq⟩ := hrel
  obtain ⟨t, ht, hts, hdata⟩ := copyRows_spec other
    (Image.blank other.m_width other.m_height)
    other.m_width other.m_height ho (Image.blank_shape other.m_width other.m_height)
  have hte : t = other := by
    obtain ⟨d, tw, th⟩ := t
    obtain ⟨od, ow, oh⟩ := other
    obtain ⟨h1, h2, _⟩ := hts
    simp only at h1 h2 hdata
    simp [h1, h2, hdata]
  simp only [Image.opAssign, hq, Option.some_bind,
    Image.allocateMemory_eq q.m_data other.m_width other.m_height hwh]
  exact ht.trans (congrArg some hte)

/-- Copy construction from a shaped source without zero-sample rows yields
exactly the source value. -/
theorem Image.ctorCopy_spec (other : Image) (w h : Nat) (ho : other.Shape w h)
    (hwh : w = 0 → h = 0) : Image.ctorCopy other = some other := by
  have hw := ho.1
  have hh := ho.2.1
  subst hw
  subst hh
  obtain ⟨t, ht, hts, hdata⟩ := copyRows_spec other
    (Image.blank other.m_width other.m_height)
    other.m_width other.m_height ho (Image.blank_shape other.m_width other.m_height)
  have hte : t = other := by
    obtain ⟨d, tw, th⟩ := t
    obtain ⟨od, ow, oh⟩ := other
    obtain ⟨h1, h2, _⟩ := hts
    simp only at h1 h2 hdata
    simp [h1, h2, hdata]
  simp only [Image.ctorCopy, Option.some_bind,
    Image.allocateMemory_eq none other.m_width other.m_height hwh]
  exact ht.trans (congrArg some hte)

/-! ## Image theorems -/

/-- C8: for images of identical width and height, `A + B` is defined, has
that width and height, and its sample at row i, column j is
`min(255, A[i][j] + B[i][j])`, a value in [0,255]; and
[[10,20],[30,40]] + ones(2,2) is [[255,255],[255,255]]. -/
theorem Image.opAdd_saturating (A B : Image) (hA : A.WF) (hB : B.WF)
    (hw : A.m_width = B.m_width) (hh : A.m_height = B.m_height) :
    (∃ R, A.opAdd B = some R ∧ R.m_width = A.m_width ∧ R.m_height = A.m_height ∧
      ∀ i j, i < A.m_height → j < A.m_width →
        ∃ a b, A.get i j = some a ∧ B.get i j = some b ∧
          R.get i j = some (min 255 (a + b)) ∧ min 255 (a + b) ≤ 255) ∧
    (∃ O, Image.ones 2 2 = some O ∧
      O = Image.mk (some [[255, 255], [255, 255]]) 2 2 ∧
      sampleImage.opAdd O = some (Image.mk (some [[255, 255], [255, 255]]) 2 2)) := by
  refine ⟨?_, _, rfl, by decide, by decide⟩
  obtain ⟨t, ht, hts, hget⟩ := fill_spec A.m_width A.m_height
    (fun i j => toU8 (min 255 ((((A.get i j).getD 0 : Nat) : Int) + (((B.get i j).getD 0 : Nat) : Int))))
    (fun i j result => do
        let a ← A.get i j
        let b ← B.get i j
        result.set i j (toU8 (min 255 ((a : Int) + (b : Int)))))
    (by
      intro i j r hi hj
      obtain ⟨a, ha, _⟩ := hA.get_lt i j hi hj
      obtain ⟨b, hb, _⟩ := hB.get_lt i j (by omega) (by omega)
      simp [ha, hb])
    (Image.blank A.m_width A.m_height) (Image.blank_shape _ _)
  have hrun : A.opAdd B = some t := by
    simp only [Image.opAdd, Image.ctorSize_eq _ _ hA.2.2.1, Option.some_bind]
    exact ht
  refine ⟨t, hrun, hts.1, hts.2.1, ?_⟩
  intro i j hi hj
  obtain ⟨a, ha, ha'⟩ := hA.get_lt i j hi hj
  obtain ⟨b, hb, hb'⟩ := hB.get_lt i j (by omega) (by omega)
  refine ⟨a, b, ha, hb, ?_, by omega⟩
  rw [hget i j hi hj, ha, hb]
  simp only [Option.getD_some, toU8, Option.some.injEq]
  omega

/-- Witness for C8 on [[10,20],[30,40]] + [[10,20],[30,40]]. -/
theorem Image.opAdd_saturating_witness :
    ∃ R, sampleImage.opAdd sampleImage = some R ∧ R.m_width = 2 ∧ R.m_height = 2 ∧
      ∀ i j, i < 2 → j < 2 →
        ∃ a b, sampleImage.get i j = some a ∧ sampleImage.get i j = some b ∧
          R.get i j = some (min 255 (a + b)) ∧ min 255 (a + b) ≤ 255 :=
  (Image.opAdd_saturating sampleImage sampleImage (by decide) (by decide) rfl rfl).1

/-- C9: for images of identical width and height, `A - B` is defined, has
that width and height, and its sample at row i, column j is
`max(0, A[i][j] - B[i][j])` (truncated subtraction), a value in [0,255]; and
ones(2,2) - [[10,20],[30,40]] is [[245,235],[225,215]]. -/
theorem Image.opSub_saturating (A B : Image) (hA : A.WF) (hB : B.WF)
    (hw : A.m_width = B.m_width) (hh : A.m_height = B.m_height) :
    (∃ R, A.opSub B = some R ∧ R.m_width = A.m_width ∧ R.m_height = A.m_height ∧
      ∀ i j, i < A.m_height → j < A.m_width →
        ∃ a b v, A.get i j = some a ∧ B.get i j = some b ∧ R.get i j = some v ∧
          (v : Int) = max 0 ((a : Int) - (b : Int)) ∧ v ≤ 255) ∧
    (∃ O, Image.ones 2 2 = some O ∧
      O.opSub sampleImage = some (Image.mk (some [[245, 235], [225, 215]]) 2 2)) := by
  refine ⟨?_, _, rfl, by decide⟩
  obtain ⟨t, ht, hts, hget⟩ := fill_spec A.m_width A.m_height
    (fun i j => toU8 (max 0 ((((A.get i j).getD 0 : Nat) : Int) - (((B.get i j).getD 0 : Nat) : Int))))
    (fun i j result => do
        let a ← A.get i j
        let b ← B.get i j
        result.set i j (toU8 (max 0 ((a : Int) - (b : Int)))))
    (by
      intro i j r hi hj
      obtain ⟨a, ha, _⟩ := hA.get_lt i j hi hj
      obtain ⟨b, hb, _⟩ := hB.get_lt i j (by omega) (by omega)
      simp [ha, hb])
    (Image.blank A.m_width A.m_height) (Image.blank_shape _ _)
  have hrun : A.opSub B = some t := by
    simp only [Image.opSub, Image.ctorSize_eq _ _ hA.2.2.1, Option.some_bind]
    exact ht
  refine ⟨t, hrun, hts.1, hts.2.1, ?_⟩
  intro i j hi hj
  obtain ⟨a, ha, ha'⟩ := hA.get_lt i j hi hj
  obtain ⟨b, hb, hb'⟩ := hB.get_lt i j (by omega) (by omega)
  refine ⟨a, b, _, ha, hb, hget i j hi hj, ?_, ?_⟩
  · rw [ha, hb]
    simp only [Option.getD_some, toU8]
    omega
  · rw [ha, hb]
    simp only [Option.getD_some, toU8]
    omega

/-- Witness for C9 on [[10,20],[30,40]] - [[10,20],[30,40]]. -/
theorem Image.opSub_saturating_witness :
    ∃ R, sampleImage.opSub sampleImage = some R ∧ R.m_width = 2 ∧ R.m_height = 2 ∧
      ∀ i j, i < 2 → j < 2 →
        ∃ a b v, sampleImage.get i j = some a ∧ sampleImage.get i j = some b ∧
          R.get i j = some v ∧ (v : Int) = max 0 ((a : Int) - (b : Int)) ∧ v ≤ 255 :=
  (Image.opSub_saturating sampleImage sampleImage (by decide) (by decide) rfl rfl).1

/-- The `Rectangle` overload of `getROI` computes what the raw overload
computes on the origin converted to `unsigned int`. -/
theorem Image.getROI_eq_getROIxy (A out : Image) (r : Rectangle) :
    A.getROI out r = A.getROIxy out (toU32 r.m_x) (toU32 r.m_y) r.m_width r.m_height := by
  simp only [Image.getROI, Image.getROIxy, Image.atXY, Image.setAtXY]

theorem toU32_natCast (x : Nat) (hx : x < 4294967296) : toU32 (x : Int) = x := by
  simp only [toU32]
  omega

/-- The `int` sum of two origins, converted back to `unsigned int`, is their
mathematical sum whenever that sum is an `unsigned int` value. -/
theorem toU32_wrapI32_add (a b : Nat) (h : a + b < 4294967296) :
    toU32 (wrapI32 ((b : Int) + (a : Int))) = a + b := by
  simp only [toU32, wrapI32]
  omega

/-- A region inside the bounds of an image whose in-range samples are all
readable, with a row of at least one sample to allocate (or no row at all)
and an output whose release is defined: the raw overload returns true with a
shaped output holding the region's samples. -/
theorem Image.getROIxy_inBounds (A out : Image) (x y w h : Nat)
    (hAw : A.m_width < 4294967296) (hAh : A.m_height < 4294967296)
    (hget : ∀ i j, i < A.m_height → j < A.m_width → ∃ v, A.get i j = some v)
    (hxw : x + w ≤ A.m_width) (hyh : y + h ≤ A.m_height)
    (hwh : w = 0 → h = 0) (hrel : ∃ q, out.release = some q) :
    ∃ R, A.getROIxy out x y w h = some (true, R) ∧ R.Shape w h ∧
      ∀ i j, i < h → j < w → ∃ v, A.get (y + i) (x + j) = some v ∧ R.get i j = some v := by
  have hassign := Image.opAssign_spec out (Image.blank w h) w h (Image.blank_shape w h)
    hwh hrel
  obtain ⟨t, ht, hts, hfill⟩ := fill_spec w h
    (fun i j => (A.get (y + i) (x + j)).getD 0)
    (fun i j r => do
        let v ← A.get ((y + i) % 4294967296) ((x + j) % 4294967296)
        r.set i j v)
    (by
      intro i j r hi hj
      obtain ⟨v, hv⟩ := hget (y + i) (x + j) (by omega) (by omega)
      beta_reduce
      rw [Nat.mod_eq_of_lt (by omega : y + i < 4294967296),
        Nat.mod_eq_of_lt (by omega : x + j < 4294967296)]
      simp [hv])
    (Image.blank w h) (Image.blank_shape w h)
  have hcond : ¬ ((x + w) % 4294967296 > A.m_width ∨ (y + h) % 4294967296 > A.m_height) := by
    rw [Nat.mod_eq_of_lt (by omega : x + w < 4294967296),
      Nat.mod_eq_of_lt (by omega : y + h < 4294967296)]
    omega
  refine ⟨t, ?_, hts, ?_⟩
  · simp only [Image.getROIxy, if_neg hcond, Image.ctorSize_eq w h hwh, Option.bind_eq_bind,
      Option.some_bind, hassign]
    exact congrArg (fun o => Option.bind o (fun r => some (true, r))) ht
  · intro i j hi hj
    obtain ⟨v, hv⟩ := hget (y + i) (x + j) (by omega) (by omega)
    refine ⟨v, hv, ?_⟩
    rw [hfill i j hi hj, hv]
    rfl

/-- Region extraction inside the bounds: for a well-formed source and prior
output and a region with non-negative origin inside the image that has no row
of zero samples to allocate (width > 0, or height = 0), both `getROI`
overloads return true and leave in the output an image of width w and height h
whose sample at column j, row i is the source sample at column x+j, row y+i. -/
theorem Image.getROI_inside (A out : Image) (x y w h : Nat) (hA : A.WF) (hout : out.WF)
    (hwh : w = 0 → h = 0) (hxw : x + w ≤ A.m_width) (hyh : y + h ≤ A.m_height) :
    (x < 2147483648 → y < 2147483648 →
      ∃ R, A.getROI out (Rectangle.mk (x : Int) (y : Int) w h) = some (true, R) ∧
        R.m_width = w ∧ R.m_height = h ∧
        ∀ i j, i < h → j < w →
          ∃ v, A.get (y + i) (x + j) = some v ∧ R.get i j = some v) ∧
    (∃ R, A.getROIxy out x y w h = some (true, R) ∧
        R.m_width = w ∧ R.m_height = h ∧
        ∀ i j, i < h → j < w →
          ∃ v, A.atXY (x + j) (y + i) = some v ∧ R.atXY j i = some v) := by
  obtain ⟨R, hR, hS, hG⟩ := Image.getROIxy_inBounds A out x y w h hA.1 hA.2.1
    (fun i j hi hj => by
      obtain ⟨v, hv, _⟩ := hA.get_lt i j hi hj
      exact ⟨v, hv⟩)
    hxw hyh hwh hout.release_some
  constructor
  · intro hx hy
    refine ⟨R, ?_, hS.1, hS.2.1, hG⟩
    rw [Image.getROI_eq_getROIxy]
    simp only [toU32_natCast x (by omega), toU32_natCast y (by omega)]
    exact hR
  · exact ⟨R, hR, hS.1, hS.2.1, hG⟩

/-- The region (1,0,1,2) of [[10,20],[30,40]], through both overloads. -/
theorem Image.getROI_inside_witness :
    (∃ R, sampleImage.getROI Image.ctorDefault (Rectangle.mk 1 0 1 2) = some (true, R) ∧
        R.m_width = 1 ∧ R.m_height = 2 ∧
        ∀ i j, i < 2 → j < 1 →
          ∃ v, sampleImage.get (0 + i) (1 + j) = some v ∧ R.get i j = some v) ∧
    (∃ R, sampleImage.getROIxy Image.ctorDefault 1 0 1 2 = some (true, R) ∧
        R.m_width = 1 ∧ R.m_height = 2 ∧
        ∀ i j, i < 2 → j < 1 →
          ∃ v, sampleImage.atXY (1 + j) (0 + i) = some v ∧ R.atXY j i = some v) :=
  ⟨(Image.getROI_inside sampleImage Image.ctorDefault 1 0 1 2 (by decide) (by decide)
      (by decide) (by decide) (by decide)).1 (by decide) (by decide),
   (Image.getROI_inside sampleImage Image.ctorDefault 1 0 1 2 (by decide) (by decide)
      (by decide) (by decide) (by decide)).2⟩

/-- C1 fails on the code: the region (0,0,0,1) lies inside the 2x2 image
[[10,20],[30,40]], but the temporary `Image(0, 1)` that `getROI` builds has to
allocate a row by `new unsigned char[0] {0}`, which throws
`std::bad_array_new_length`; neither overload returns true. -/
theorem Image.getROI_zero_width :
    sampleImage.WF ∧ 0 + 0 ≤ sampleImage.width ∧ 0 + 1 ≤ sampleImage.height ∧
    Image.ctorSize 0 1 = none ∧
    sampleImage.getROI Image.ctorDefault (Rectangle.mk 0 0 0 1) = none ∧
    sampleImage.getROIxy Image.ctorDefault 0 0 0 1 = none := by
  decide

/-- C2 fails on the code: the `unsigned int` sum `x + width` wraps around, so
the region (4294967295, 0, 1, 0) of a 2x2 image is accepted although
4294967295 + 1 exceeds the width 2; with height 1 and width 2 the accepted call
goes on to read `m_data[0][4294967295]`, outside the row buffer. -/
theorem Image.getROIxy_wraps :
    sampleImage.WF ∧ 4294967295 + 1 > sampleImage.m_width ∧
    sampleImage.getROIxy Image.ctorDefault 4294967295 0 1 0
      = some (true, Image.mk (some []) 1 0) ∧
    sampleImage.getROIxy Image.ctorDefault 4294967295 0 2 1 = none := by
  decide

/-- C3 fails on the code: the negative origin is converted to `unsigned int`
and the sum wraps around, so the rectangle (-1, 0, 1, 0) is accepted on a 2x2
image; with width 2 and height 1 the accepted call goes on to read
`m_data[0][4294967295]`, outside the row buffer. -/
theorem Image.getROI_negative_origin :
    sampleImage.WF ∧ (Rectangle.mk (-1) 0 1 0).InRange ∧
    sampleImage.getROI Image.ctorDefault (Rectangle.mk (-1) 0 1 0)
      = some (true, Image.mk (some []) 1 0) ∧
    sampleImage.getROI Image.ctorDefault (Rectangle.mk (-1) 0 2 1) = none := by
  decide

/-! ## Stream lemmas -/

theorem digitsValue_concat (xs : List Nat) (d : Nat) :
    digitsValue (xs ++ [d]) = digitsValue xs * 10 + (d - 48) := by
  simp [digitsValue, List.foldl_append]

theorem decimalFuel_isDigit (fuel n : Nat) : ∀ c ∈ decimalFuel fuel n, isDigit c = true := by
  induction fuel generalizing n with
  | zero => intro c hc; simp [decimalFuel] at hc
  | succ f ih =>
    intro c hc
    simp only [decimalFuel] at hc
    split_ifs at hc with hlt
    · simp only [List.mem_singleton] at hc
      subst hc
      simp only [isDigit, Bool.and_eq_true, decide_eq_true_eq]
      omega
    · rw [List.mem_append] at hc
      rcases hc with hc | hc
      · exact ih _ c hc
      · simp only [List.mem_singleton] at hc
        subst hc
        simp only [isDigit, Bool.and_eq_true, decide_eq_true_eq]
        omega

theorem decimalFuel_ne_nil (fuel n : Nat) : decimalFuel (fuel + 1) n ≠ [] := by
  simp only [decimalFuel]
  split_ifs <;> simp

theorem digitsValue_decimalFuel (fuel n : Nat) (hn : n < 10 ^ fuel) :
    digitsValue (decimalFuel fuel n) = n := by
  induction fuel generalizing n with
  | zero =>
    simp only [pow_zero, Nat.lt_one_iff] at hn
    subst hn
    rfl
  | succ f ih =>
    simp only [decimalFuel]
    split_ifs with hlt
    · simp [digitsValue]
    · rw [digitsValue_concat, ih (n / 10) (by rw [pow_succ] at hn; omega)]
      omega

theorem decimal_isDigit (n : Nat) : ∀ c ∈ decimal n, isDigit c = true :=
  decimalFuel_isDigit 10 n

theorem decimal_ne_nil (n : Nat) : decimal n ≠ [] := decimalFuel_ne_nil 9 n

theorem digitsValue_decimal (n : Nat) (hn : n < 4294967296) : digitsValue (decimal n) = n :=
  digitsValue_decimalFuel 10 n (by norm_num; omega)

theorem isDigit_not_isSpace (c : Nat) (h : isDigit c = true) : isSpace c = false := by
  simp only [isDigit, Bool.and_eq_true, decide_eq_true_eq] at h
  simp only [isSpace, Bool.or_eq_false_iff, beq_eq_false_iff_ne, Bool.and_eq_false_iff,
    decide_eq_false_iff_not]
  omega

/-- Scanning a number that starts with a non-empty run of digits `ds` followed
by a non-digit: no sign, the digits `ds`, and the rest unread. -/
theorem IStream.scanNumber_digits (ds rest : List Nat) (c : Nat) (hne : ds ≠ [])
    (hds : ∀ d ∈ ds, isDigit d = true) (hc : isDigit c = false) :
    IStream.scanNumber (ds ++ c :: rest) = (false, ds, c :: rest) := by
  obtain ⟨d, tl, rfl⟩ := List.exists_cons_of_ne_nil hne
  have hd : isDigit d = true := hds d (List.mem_cons_self _ _)
  have hd' := hd
  simp only [isDigit, Bool.and_eq_true, decide_eq_true_eq] at hd'
  have h45 : d ≠ 45 := by omega
  have h43 : d ≠ 43 := by omega
  have htl : ∀ a ∈ tl, isDigit a = true := fun a ha => hds a (List.mem_cons_of_mem _ ha)
  simp [IStream.scanNumber, h45, h43, hd, hc, List.takeWhile_append_of_pos htl,
    List.dropWhile_append_of_pos htl]

/-- The sentry on a good stream whose unread bytes are one whitespace byte
followed by a digit skips exactly that byte. -/
theorem IStream.sentry_space_digits (s : Nat) (ds rest : List Nat) (hs : isSpace s = true)
    (hne : ds ≠ []) (hds : ∀ d ∈ ds, isDigit d = true) :
    IStream.sentry { buf := s :: (ds ++ rest), eofbit := false, failbit := false }
      = ({ buf := ds ++ rest, eofbit := false, failbit := false }, true) := by
  obtain ⟨d, tl, rfl⟩ := List.exists_cons_of_ne_nil hne
  have hd : isSpace d = false := isDigit_not_isSpace d (hds d (List.mem_cons_self _ _))
  simp [IStream.sentry, hs, hd]

/-- Reading back a printed `unsigned int`: after one whitespace byte, the
decimal digits of `n` followed by a non-digit byte `c` are extracted as `n`,
and the stream stays good with `c` unread. -/
theorem IStream.readUnsigned_decimal (s c n old : Nat) (rest : List Nat)
    (hs : isSpace s = true) (hc : isDigit c = false) (hn : n < 4294967296) :
    IStream.readUnsigned
        { buf := s :: (decimal n ++ c :: rest), eofbit := false, failbit := false } old
      = ({ buf := c :: rest, eofbit := false, failbit := false }, n) := by
  have hv := digitsValue_decimal n hn
  have hne := decimal_ne_nil n
  simp only [IStream.readUnsigned,
    IStream.sentry_space_digits s (decimal n) (c :: rest) hs hne (decimal_isDigit n),
    IStream.scanNumber_digits (decimal n) rest c hne (decimal_isDigit n) hc, hv]
  have h1 : (decimal n).isEmpty = false := by
    cases hd : decimal n with
    | nil => exact absurd hd hne
    | cons _ _ => rfl
  have h2 : ¬ n > 4294967295 := by omega
  simp [h1, h2]

/-- Parsing the header written by `save`: `load` accepts it for every prior
value of the image and reaches the row-reading loop with the stream positioned
on the first raw byte and a fresh `w` x `h` buffer, when there is no row of
zero samples to allocate. -/
theorem Image.load_header (B : Image) (w h : Nat) (body : List Nat) (maxVal0 : Int)
    (hw : w < 4294967296) (hh : h < 4294967296) (hwh : w = 0 → h = 0) :
    B.load (some (80 :: 53 :: 10 :: (decimal w ++ 32 :: (decimal h ++
        10 :: 50 :: 53 :: 53 :: 10 :: body)))) maxVal0
      = (forLoop h
          (fun i (p : IStream × Image) =>
            let (st, bytes) := p.1.read p.2.m_width
            (p.2.writeRow i bytes).map (fun img => (st, img)))
          (({ buf := body, eofbit := false, failbit := false } : IStream),
            Image.blank w h)).map (fun p => (true, p.2)) := by
  have h1 : IStream.readToken { buf := 80 :: 53 :: 10 :: (decimal w ++ 32 :: (decimal h ++
        10 :: 50 :: 53 :: 53 :: 10 :: body)), eofbit := false, failbit := false }
      = ({ buf := 10 :: (decimal w ++ 32 :: (decimal h ++
        10 :: 50 :: 53 :: 53 :: 10 :: body)), eofbit := false, failbit := false },
        [80, 53]) := by
    simp [IStream.readToken, IStream.sentry, isSpace]
  have h2 := IStream.readUnsigned_decimal 10 32 w B.m_width
    (decimal h ++ 10 :: 50 :: 53 :: 53 :: 10 :: body) (by decide) (by decide) hw
  have h3 := IStream.readUnsigned_decimal 32 10 h B.m_height
    (50 :: 53 :: 53 :: 10 :: body) (by decide) (by decide) hh
  have h4 : IStream.readInt
      { buf := 10 :: 50 :: 53 :: 53 :: 10 :: body, eofbit := false, failbit := false } maxVal0
      = ({ buf := 10 :: body, eofbit := false, failbit := false }, 255) := by
    simp [IStream.readInt, IStream.sentry, IStream.scanNumber, isSpace, isDigit, digitsValue]
  have h5 : IStream.ignore { buf := 10 :: body, eofbit := false, failbit := false }
      = { buf := body, eofbit := false, failbit := false } := by
    simp [IStream.ignore]
  have hc : ¬ (w = 0 ∧ 0 < h) := fun hc => absurd (hwh hc.1) (Nat.pos_iff_ne_zero.mp hc.2)
  simp only [Image.load, h1, h2, h3, h4, h5]
  simp [Image.allocateMemory, hc, Image.blank]

/-- A full-row write into a shaped buffer replaces that row. -/
theorem Image.writeRow_full (q : Image) (rq : List (List Nat)) (w h k : Nat)
    (bytes : List Nat) (hq : q.m_data = some rq) (hrq : RowsShape rq w h) (hk : k < h)
    (hb : bytes.length = w) :
    q.writeRow k bytes = some { q with m_data := some (rq.set k bytes) } ∧
      RowsShape (rq.set k bytes) w h := by
  obtain ⟨hlen, hall⟩ := hrq
  have hkq : k < rq.length := by omega
  have hql : (rq[k]).length = w := hall _ (List.getElem_mem hkq)
  have hdrop : List.drop w rq[k] = [] := by
    rw [List.drop_eq_nil_iff]; omega
  refine ⟨?_, ?_, ?_⟩
  · simp [Image.writeRow, hq, hkq, hb, hql, hdrop]
  · simp [hlen]
  · intro r hmem
    rcases List.mem_or_eq_of_mem_set hmem with h1 | h1
    · exact hall r h1
    · rw [h1]; exact hb

/-- Two row tables of the same height that agree on every row index below the
height are equal. -/
theorem rows_eq_of_agree (r1 r2 : List (List Nat)) (h : Nat) (h1 : r1.length = h)
    (h2 : r2.length = h) (hsame : ∀ i, i < h → r1[i]? = r2[i]?) : r1 = r2 := by
  apply List.ext_getElem?
  intro n
  by_cases hn : n < h
  · exact hsame n hn
  · rw [List.getElem?_eq_none (by omega), List.getElem?_eq_none (by omega)]

/-- The row-reading loop of `load`: from a good stream holding the rows of a
`w` x `h` table back to back it is defined and fills the buffer with that
table. -/
theorem readRows_spec (rows : List (List Nat)) (w h : Nat) (hrs : RowsShape rows w h)
    (s : Image) (hs : s.Shape w h) :
    ∃ p, forLoop h
        (fun i (p : IStream × Image) =>
          let (st, bytes) := p.1.read p.2.m_width
          (p.2.writeRow i bytes).map (fun img => (st, img)))
        (({ buf := rows.flatten, eofbit := false, failbit := false } : IStream), s) = some p ∧
      p.2 = Image.mk (some rows) w h := by
  obtain ⟨hlen, hall⟩ := hrs
  have loop := forLoop_inv
    (fun k (p : IStream × Image) =>
      p.1 = { buf := (rows.drop k).flatten, eofbit := false, failbit := false } ∧
      p.2.m_width = w ∧ p.2.m_height = h ∧
      ∃ rq, p.2.m_data = some rq ∧ RowsShape rq w h ∧ ∀ i, i < k → rq[i]? = rows[i]?)
    h
    (fun i (p : IStream × Image) =>
      let (st, bytes) := p.1.read p.2.m_width
      (p.2.writeRow i bytes).map (fun img => (st, img)))
    (({ buf := rows.flatten, eofbit := false, failbit := false } : IStream), s)
    (by
      obtain ⟨h1, h2, rq, hrq, hshape⟩ := hs
      exact ⟨by simp, h1, h2, rq, hrq, hshape, fun i hi => absurd hi (Nat.not_lt_zero _)⟩)
    (by
      intro k hk p ⟨hst, hpw, hph, rq, hrq, hshape, hsame⟩
      obtain ⟨st, q⟩ := p
      simp only at hst hpw hph hrq
      have hkr : k < rows.length := by omega
      have hrl : (rows[k]).length = w := hall _ (List.getElem_mem hkr)
      have hbuf : (rows.drop k).flatten = rows[k] ++ (rows.drop (k + 1)).flatten := by
        rw [List.drop_eq_getElem_cons hkr, List.flatten_cons]
      have hread : st.read q.m_width
          = ({ buf := (rows.drop (k + 1)).flatten, eofbit := false, failbit := false },
              rows[k]) := by
        rw [hst, hpw, hbuf]
        simp [IStream.read, hrl, List.take_left' hrl, List.drop_left' hrl]
      obtain ⟨hwrite, hshape'⟩ := Image.writeRow_full q rq w h k rows[k] hrq hshape hk hrl
      refine ⟨(({ buf := (rows.drop (k + 1)).flatten, eofbit := false, failbit := false } :
          IStream), { q with m_data := some (rq.set k rows[k]) }), ?_, rfl, hpw, hph, _, rfl,
          hshape', ?_⟩
      · simp only [hread, hwrite, Option.map_some']
      · intro i hi
        by_cases hik : i = k
        · subst hik
          have hkq : i < rq.length := by rw [hshape.1]; exact hk
          simp [hkq, hkr]
        · rw [List.getElem?_set_ne (Ne.symm hik)]
          exact hsame i (by omega))
  obtain ⟨p, hp, _, hpw, hph, rq, hrq, hshape, hsame⟩ := loop
  refine ⟨p, hp, ?_⟩
  have hrows : rq = rows := rows_eq_of_agree rq rows h hshape.1 hlen hsame
  obtain ⟨st, d, pw, ph⟩ := p
  simp only at hpw hph hrq
  simp [hpw, hph, hrq, hrows]

/-- The row-writing loop of `save`: over a shaped row table it is defined and
appends the rows back to back. -/
theorem writeRows_spec (A : Image) (rows : List (List Nat)) (header : List Nat)
    (hrs : RowsShape rows A.m_width A.m_height)
    (hdata : 0 < A.m_height → A.m_data = some rows) :
    forLoop A.m_height
        (fun i out => (A.readRow i A.m_width).map (fun bytes => out ++ bytes)) header
      = some (header ++ rows.flatten) := by
  obtain ⟨hlen, hall⟩ := hrs
  have loop := forLoop_inv
    (fun k (out : List Nat) => out = header ++ (rows.take k).flatten)
    A.m_height
    (fun i out => (A.readRow i A.m_width).map (fun bytes => out ++ bytes)) header
    (by simp)
    (by
      intro k hk out hout
      have hkr : k < rows.length := by omega
      have hrl : (rows[k]).length = A.m_width := hall _ (List.getElem_mem hkr)
      have hread : A.readRow k A.m_width = some rows[k] := by
        simp [Image.readRow, hdata (by omega), hkr, hrl, List.take_of_length_le (Nat.le_of_eq hrl)]
      refine ⟨out ++ rows[k], by simp [hread], ?_⟩
      show out ++ rows[k] = header ++ (rows.take (k + 1)).flatten
      rw [hout, List.take_succ, List.getElem?_eq_getElem hkr]
      simp only [Option.toList, List.flatten_append, List.flatten_cons, List.flatten_nil,
        List.append_nil, List.append_assoc])
  obtain ⟨out, hout, hinv⟩ := loop
  rw [hout, hinv, ← hlen, List.take_length]

theorem RowsShape.length_flatten (rows : List (List Nat)) (w h : Nat)
    (hrs : RowsShape rows w h) : rows.flatten.length = h * w := by
  induction rows generalizing h with
  | nil =>
    obtain ⟨hlen, _⟩ := hrs
    simp only [List.length_nil] at hlen
    subst hlen
    simp
  | cons r tl ih =>
    obtain ⟨hlen, hall⟩ := hrs
    simp only [List.length_cons] at hlen
    subst hlen
    have htl := ih tl.length ⟨rfl, fun r' hr' => hall r' (List.mem_cons_of_mem _ hr')⟩
    rw [List.flatten_cons, List.length_append, htl, hall r (List.mem_cons_self _ _)]
    ring

/-- The row table of a well-formed image (empty for a null buffer) has the
image's shape, and it is the buffer whenever the image has a row. -/
theorem Image.WF.rows_shape {A : Image} (hA : A.WF) :
    RowsShape (A.m_data.getD []) A.m_width A.m_height ∧
      (0 < A.m_height → A.m_data = some (A.m_data.getD [])) := by
  obtain ⟨_, _, _, h3⟩ := hA
  cases hd : A.m_data with
  | none =>
    rw [hd] at h3
    obtain ⟨h1, h2⟩ := h3
    refine ⟨⟨by simp [h2], by simp⟩, fun hpos => by omega⟩
  | some rows =>
    rw [hd] at h3
    exact ⟨h3.1, fun _ => rfl⟩

/-- C10: save/load round trip.  `save` writes the header
"P5\n<w> <h>\n255\n" followed by the h*w samples row-major, and `load` of these
bytes, whatever the image held before, returns true and yields an image of the
same width and height with the same sample at every row i and column j. -/
theorem Image.save_load_roundtrip (A B : Image) (maxVal0 : Int) (hA : A.WF) :
    ∃ bytes A', A.save true = some (true, some bytes) ∧
      bytes = [80, 53, 10] ++ decimal A.m_width ++ [32] ++ decimal A.m_height
        ++ [10, 50, 53, 53, 10] ++ (A.m_data.getD []).flatten ∧
      (A.m_data.getD []).flatten.length = A.m_height * A.m_width ∧
      B.load (some bytes) maxVal0 = some (true, A') ∧
      A'.m_width = A.m_width ∧ A'.m_height = A.m_height ∧
      ∀ i j, i < A.m_height → j < A.m_width →
        ∃ v, A.get i j = some v ∧ A'.get i j = some v := by
  obtain ⟨hrs, hdata⟩ := hA.rows_shape
  have hsave := writeRows_spec A (A.m_data.getD [])
    ([80, 53, 10] ++ decimal A.m_width ++ [32] ++ decimal A.m_height ++ [10, 50, 53, 53, 10])
    hrs hdata
  obtain ⟨p, hp, hp2⟩ := readRows_spec (A.m_data.getD []) A.m_width A.m_height hrs
    (Image.blank A.m_width A.m_height) (Image.blank_shape _ _)
  have hload := Image.load_header B A.m_width A.m_height (A.m_data.getD []).flatten maxVal0
    hA.1 hA.2.1 hA.2.2.1
  refine ⟨_, Image.mk (some (A.m_data.getD [])) A.m_width A.m_height, ?_, rfl,
    RowsShape.length_flatten _ _ _ hrs, ?_, rfl, rfl, ?_⟩
  · simp only [Image.save, Bool.not_true, Bool.false_eq_true, if_false, hsave, Option.map_some']
  · have hbytes : [80, 53, 10] ++ decimal A.m_width ++ [32] ++ decimal A.m_height
          ++ [10, 50, 53, 53, 10] ++ (A.m_data.getD []).flatten
        = 80 :: 53 :: 10 :: (decimal A.m_width ++ 32 :: (decimal A.m_height ++
          10 :: 50 :: 53 :: 53 :: 10 :: (A.m_data.getD []).flatten)) := by
      simp
    rw [hbytes, hload, hp, Option.map_some', hp2]
  · intro i j hi hj
    obtain ⟨v, hv, _⟩ := hA.get_lt i j hi hj
    refine ⟨v, hv, ?_⟩
    rw [← hv]
    simp only [Image.get]
    rw [hdata (by omega)]
    simp

/-- Witness for C10 on the 2x2 image [[10,20],[30,40]] and a fresh image. -/
theorem Image.save_load_roundtrip_witness :
    ∃ bytes A', sampleImage.save true = some (true, some bytes) ∧
      bytes = [80, 53, 10] ++ decimal 2 ++ [32] ++ decimal 2
        ++ [10, 50, 53, 53, 10] ++ [10, 20, 30, 40] ∧
      [10, 20, 30, 40].length = 2 * 2 ∧
      Image.ctorDefault.load (some bytes) 0 = some (true, A') ∧
      A'.m_width = 2 ∧ A'.m_height = 2 ∧
      ∀ i j, i < 2 → j < 2 →
        ∃ v, sampleImage.get i j = some v ∧ A'.get i j = some v :=
  Image.save_load_roundtrip sampleImage Image.ctorDefault 0 (by decide)

/-! ## Rectangle theorems, continued -/

/-- With an edge representable in `int`, the `int` computation
`x + static_cast<int>(w)` is the mathematical sum. -/
theorem wrapI32_edge (x : Int) (w : Nat) (h1 : -2147483648 ≤ x) (h2 : x < 2147483648)
    (h3 : w < 4294967296) (hfit : x + (w : Int) ≤ 2147483647) :
    wrapI32 (x + castInt w) = x + (w : Int) := by
  simp only [castInt, wrapI32]
  omega

/-- A difference in `[0, 2^32)` survives the `int` subtraction followed by
the conversion to `unsigned int`. -/
theorem toU32_wrapI32_cast (d : Int) (h0 : 0 ≤ d) (h1 : d < 4294967296) :
    ((toU32 (wrapI32 d) : Nat) : Int) = d := by
  simp only [toU32, wrapI32]
  omega

/-- C13 as stated fails: (0,0,0,5) | (0,10,0,5) is the empty rectangle
(0,0,0,15) although the two origins differ; and (0,0,4294967295,1) | (-1,0,0,1)
is the empty rectangle (-1,0,0,1) although the first operand is not empty. -/
theorem Rectangle.opOr_empty_counterexample :
    ((Rectangle.mk 0 0 0 5).opOr (Rectangle.mk 0 10 0 5) = Rectangle.mk 0 0 0 15 ∧
      ¬ ((Rectangle.mk 0 0 0 5).m_x = (Rectangle.mk 0 10 0 5).m_x ∧
         (Rectangle.mk 0 0 0 5).m_y = (Rectangle.mk 0 10 0 5).m_y)) ∧
    ((Rectangle.mk 0 0 4294967295 1).InRange ∧ (Rectangle.mk (-1) 0 0 1).InRange ∧
      (Rectangle.mk 0 0 4294967295 1).opOr (Rectangle.mk (-1) 0 0 1) = Rectangle.mk (-1) 0 0 1 ∧
      ¬ ((Rectangle.mk 0 0 4294967295 1).m_width = 0 ∨
         (Rectangle.mk 0 0 4294967295 1).m_height = 0)) := by
  decide

/-- C13 (amended): when the right and bottom edges of `a` and `b` are
representable in `int`, a union of width 0 forces both widths to be 0 and the
same x origin, and a union of height 0 forces both heights to be 0 and the
same y origin; so an empty union has two empty operands, and a union of width
0 and height 0 has two operands of width 0 and height 0 at the same origin. -/
theorem Rectangle.opOr_empty (a b : Rectangle) (ha : a.InRange) (hb : b.InRange)
    (hea : a.EdgesFit) (heb : b.EdgesFit) :
    ((a.opOr b).m_width = 0 → a.m_width = 0 ∧ b.m_width = 0 ∧ a.m_x = b.m_x) ∧
    ((a.opOr b).m_height = 0 → a.m_height = 0 ∧ b.m_height = 0 ∧ a.m_y = b.m_y) ∧
    (((a.opOr b).m_width = 0 ∨ (a.opOr b).m_height = 0) →
      (a.m_width = 0 ∨ a.m_height = 0) ∧ (b.m_width = 0 ∨ b.m_height = 0)) ∧
    (((a.opOr b).m_width = 0 ∧ (a.opOr b).m_height = 0) →
      a.m_x = b.m_x ∧ a.m_y = b.m_y) := by
  obtain ⟨ax, ay, aw, ah⟩ := a
  obtain ⟨bx, bY, bw, bh⟩ := b
  simp only [Rectangle.InRange, Rectangle.EdgesFit] at ha hb hea heb
  have eax := wrapI32_edge ax aw ha.1 ha.2.1 ha.2.2.2.2.1 hea.1
  have eay := wrapI32_edge ay ah ha.2.2.1 ha.2.2.2.1 ha.2.2.2.2.2 hea.2
  have ebx := wrapI32_edge bx bw hb.1 hb.2.1 hb.2.2.2.2.1 heb.1
  have eby := wrapI32_edge bY bh hb.2.2.1 hb.2.2.2.1 hb.2.2.2.2.2 heb.2
  have hdx := toU32_wrapI32_cast (max (ax + (aw : Int)) (bx + (bw : Int)) - min ax bx)
    (by omega) (by omega)
  have hdy := toU32_wrapI32_cast (max (ay + (ah : Int)) (bY + (bh : Int)) - min ay bY)
    (by omega) (by omega)
  simp only [Rectangle.opOr, eax, eay, ebx, eby]
  have hw : toU32 (wrapI32 (max (ax + (aw : Int)) (bx + (bw : Int)) - min ax bx)) = 0 →
      aw = 0 ∧ bw = 0 ∧ ax = bx := by
    intro h0
    rw [h0] at hdx
    omega
  have hh : toU32 (wrapI32 (max (ay + (ah : Int)) (bY + (bh : Int)) - min ay bY)) = 0 →
      ah = 0 ∧ bh = 0 ∧ ay = bY := by
    intro h0
    rw [h0] at hdy
    omega
  refine ⟨hw, hh, ?_, ?_⟩
  · rintro (h0 | h0)
    · have := hw h0
      omega
    · have := hh h0
      omega
  · rintro ⟨h1, h2⟩
    exact ⟨(hw h1).2.2, (hh h2).2.2⟩

/-- Witness for the amended C13 on (3,4,0,0) | (3,4,0,0). -/
theorem Rectangle.opOr_empty_witness :
    (Rectangle.mk 3 4 0 0).opOr (Rectangle.mk 3 4 0 0) = Rectangle.mk 3 4 0 0 ∧
    (((Rectangle.mk 3 4 0 0).opOr (Rectangle.mk 3 4 0 0)).m_width = 0 →
      (Rectangle.mk 3 4 0 0).m_width = 0 ∧ (Rectangle.mk 3 4 0 0).m_width = 0 ∧
      (Rectangle.mk 3 4 0 0).m_x = (Rectangle.mk 3 4 0 0).m_x) :=
  ⟨by decide, (Rectangle.opOr_empty (Rectangle.mk 3 4 0 0) (Rectangle.mk 3 4 0 0)
    (by decide) (by decide) (by decide) (by decide)).1⟩

/-- C15 fails on the code: the constructor takes the difference
2147483647 - (-2147483648) in `int`, where it overflows, so
Rectangle(Point(-2147483648,0), Point(2147483647,0)) has width 1 and not
4294967295, a width that `unsigned int` can hold. -/
theorem Rectangle.ofPoints_wraps :
    (Point.mk (-2147483648) 0).InRange ∧ (Point.mk 2147483647 0).InRange ∧
    Rectangle.ofPoints (Point.mk (-2147483648) 0) (Point.mk 2147483647 0)
      = Rectangle.mk (-2147483648) 0 1 0 ∧
    ((Rectangle.ofPoints (Point.mk (-2147483648) 0) (Point.mk 2147483647 0)).m_width : Int)
      ≠ |(2147483647 : Int) - (-2147483648)| := by
  decide

/-- The two-corner constructor where no difference overflows: when both
coordinate differences have absolute value at most 2147483647,
Rectangle(p1, p2) has origin p1, width |p2.x - p1.x| and
height |p2.y - p1.y|; and Rectangle(p1, p2), Rectangle(p2, p1) have the same
width and height with origins p1 and p2. -/
theorem Rectangle.ofPoints_spec (p1 p2 : Point)
    (hdx : |p2.m_x - p1.m_x| ≤ 2147483647) (hdy : |p2.m_y - p1.m_y| ≤ 2147483647) :
    ((Rectangle.ofPoints p1 p2).m_x = p1.m_x ∧ (Rectangle.ofPoints p1 p2).m_y = p1.m_y ∧
      ((Rectangle.ofPoints p1 p2).m_width : Int) = |p2.m_x - p1.m_x| ∧
      ((Rectangle.ofPoints p1 p2).m_height : Int) = |p2.m_y - p1.m_y|) ∧
    ((Rectangle.ofPoints p1 p2).m_width = (Rectangle.ofPoints p2 p1).m_width ∧
      (Rectangle.ofPoints p1 p2).m_height = (Rectangle.ofPoints p2 p1).m_height ∧
      (Rectangle.ofPoints p2 p1).m_x = p2.m_x ∧ (Rectangle.ofPoints p2 p1).m_y = p2.m_y) := by
  obtain ⟨x1, y1⟩ := p1
  obtain ⟨x2, y2⟩ := p2
  simp only [abs_le] at hdx hdy
  simp only [Rectangle.ofPoints, wrapI32, toU32, Int.natCast_natAbs]
  refine ⟨⟨trivial, trivial, ?_, ?_⟩, ?_, ?_, trivial, trivial⟩
  · rcases abs_cases (x2 - x1) with ⟨h1, h2⟩ | ⟨h1, h2⟩ <;>
    rcases abs_cases ((x2 - x1 + 2147483648) % 4294967296 - 2147483648) with ⟨h3, h4⟩ | ⟨h3, h4⟩ <;>
    omega
  · rcases abs_cases (y2 - y1) with ⟨h1, h2⟩ | ⟨h1, h2⟩ <;>
    rcases abs_cases ((y2 - y1 + 2147483648) % 4294967296 - 2147483648) with ⟨h3, h4⟩ | ⟨h3, h4⟩ <;>
    omega
  · rcases abs_cases ((x2 - x1 + 2147483648) % 4294967296 - 2147483648) with ⟨h3, h4⟩ | ⟨h3, h4⟩ <;>
    rcases abs_cases ((x1 - x2 + 2147483648) % 4294967296 - 2147483648) with ⟨h5, h6⟩ | ⟨h5, h6⟩ <;>
    omega
  · rcases abs_cases ((y2 - y1 + 2147483648) % 4294967296 - 2147483648) with ⟨h3, h4⟩ | ⟨h3, h4⟩ <;>
    rcases abs_cases ((y1 - y2 + 2147483648) % 4294967296 - 2147483648) with ⟨h5, h6⟩ | ⟨h5, h6⟩ <;>
    omega

/-- The two-corner constructor on the corners (7,2) and (3,9), in both
orders. -/
theorem Rectangle.ofPoints_spec_witness :
    Rectangle.ofPoints (Point.mk 7 2) (Point.mk 3 9) = Rectangle.mk 7 2 4 7 ∧
    Rectangle.ofPoints (Point.mk 3 9) (Point.mk 7 2) = Rectangle.mk 3 9 4 7 ∧
    ((Rectangle.ofPoints (Point.mk 7 2) (Point.mk 3 9)).m_width : Int) = |(3 : Int) - 7| :=
  ⟨by decide, by decide,
    (Rectangle.ofPoints_spec (Point.mk 7 2) (Point.mk 3 9) (by decide) (by decide)).1.2.2.1⟩

/-- C17 fails on the code: `operator&` is documented as returning the
overlapping area, but it takes the right edge of a = (0,0,4294967295,1)
through `static_cast<int>(m_width)`, which is -1; with b = (0,0,1,1) the point
(0,0) lies in both operands, yet a & b is (0,0,0,0), which covers no point,
although the overlap (0,0,1,1) is representable. -/
theorem Rectangle.opAnd_misses_point :
    (Rectangle.mk 0 0 4294967295 1).InRange ∧ (Rectangle.mk 0 0 1 1).InRange ∧
    (Rectangle.mk 0 0 4294967295 1).opAnd (Rectangle.mk 0 0 1 1) = Rectangle.mk 0 0 0 0 ∧
    (Rectangle.mk 0 0 4294967295 1).Covers 0 0 ∧ (Rectangle.mk 0 0 1 1).Covers 0 0 ∧
    ¬ ((Rectangle.mk 0 0 4294967295 1).opAnd (Rectangle.mk 0 0 1 1)).Covers 0 0 := by
  decide

/-- Points of the intersection where no cast wraps: when the right and bottom
edges of `a` and `b` are representable in `int`, an integer point lies in
`a & b` exactly when it lies in `a` and in `b`. -/
theorem Rectangle.opAnd_covers_iff (a b : Rectangle) (ha : a.InRange) (hb : b.InRange)
    (hea : a.EdgesFit) (heb : b.EdgesFit) (px py : Int) :
    (a.opAnd b).Covers px py ↔ (a.Covers px py ∧ b.Covers px py) := by
  obtain ⟨ax, ay, aw, ah⟩ := a
  obtain ⟨bx, bY, bw, bh⟩ := b
  simp only [Rectangle.InRange, Rectangle.EdgesFit] at ha hb hea heb
  have eax := wrapI32_edge ax aw ha.1 ha.2.1 ha.2.2.2.2.1 hea.1
  have eay := wrapI32_edge ay ah ha.2.2.1 ha.2.2.2.1 ha.2.2.2.2.2 hea.2
  have ebx := wrapI32_edge bx bw hb.1 hb.2.1 hb.2.2.2.2.1 heb.1
  have eby := wrapI32_edge bY bh hb.2.2.1 hb.2.2.2.1 hb.2.2.2.2.2 heb.2
  simp only [Rectangle.opAnd, Rectangle.Covers, eax, eay, ebx, eby]
  split_ifs with hc
  · have hdx := toU32_wrapI32_cast (min (ax + (aw : Int)) (bx + (bw : Int)) - max ax bx)
      (by omega) (by omega)
    have hdy := toU32_wrapI32_cast (min (ay + (ah : Int)) (bY + (bh : Int)) - max ay bY)
      (by omega) (by omega)
    simp only [hdx, hdy]
    omega
  · simp only [Nat.cast_zero]
    omega

/-- The point (7,7) lies in (0,0,10,10) & (5,5,10,10) and in both operands. -/
theorem Rectangle.opAnd_covers_iff_witness :
    ((Rectangle.mk 0 0 10 10).opAnd (Rectangle.mk 5 5 10 10)).Covers 7 7 ↔
      ((Rectangle.mk 0 0 10 10).Covers 7 7 ∧ (Rectangle.mk 5 5 10 10).Covers 7 7) :=
  Rectangle.opAnd_covers_iff (Rectangle.mk 0 0 10 10) (Rectangle.mk 5 5 10 10)
    (by decide) (by decide) (by decide) (by decide) 7 7

/-- C18: every rectangle that contains both `a` and `b` contains `a | b`. -/
theorem Rectangle.opOr_least (a b c : Rectangle) (ha : a.InRange) (hb : b.InRange)
    (hac : a.ContainedIn c) (hbc : b.ContainedIn c) : (a.opOr b).ContainedIn c := by
  obtain ⟨ax, ay, aw, ah⟩ := a
  obtain ⟨bx, bY, bw, bh⟩ := b
  obtain ⟨cx, cy, cw, ch⟩ := c
  simp only [Rectangle.InRange] at ha hb
  simp only [Rectangle.ContainedIn] at hac hbc
  simp only [Rectangle.opOr, Rectangle.ContainedIn, castInt, wrapI32, toU32]
  omega

/-- Witness for C18: (0,0,20,20) contains (0,0,10,10) and (5,5,10,10), hence
their union. -/
theorem Rectangle.opOr_least_witness :
    ((Rectangle.mk 0 0 10 10).opOr (Rectangle.mk 5 5 10 10)).ContainedIn (Rectangle.mk 0 0 20 20) :=
  Rectangle.opOr_least (Rectangle.mk 0 0 10 10) (Rectangle.mk 5 5 10 10) (Rectangle.mk 0 0 20 20)
    (by decide) (by decide) (by decide) (by decide)

/-! ## Region extraction, continued -/

/-- The raw overload returns false exactly through its bounds test, and then
hands back the output image it was given. -/
theorem Image.getROIxy_false_iff (A out R : Image) (x y w h : Nat) :
    A.getROIxy out x y w h = some (false, R) ↔
      (((x + w) % 4294967296 > A.m_width ∨ (y + h) % 4294967296 > A.m_height) ∧ R = out) := by
  by_cases hc : (x + w) % 4294967296 > A.m_width ∨ (y + h) % 4294967296 > A.m_height
  · have h1 : A.getROIxy out x y w h = some (false, out) := by
      simp only [Image.getROIxy, if_pos hc]
    rw [h1]
    constructor
    · intro h2
      exact ⟨hc, (Prod.mk.inj (Option.some.inj h2)).2.symm⟩
    · rintro ⟨_, rfl⟩
      rfl
  · constructor
    · intro h2
      exfalso
      simp only [Image.getROIxy, if_neg hc, Option.bind_eq_bind, Option.bind_eq_some] at h2
      obtain ⟨_, _, _, _, _, _, h4⟩ := h2
      exact Bool.noConfusion (Prod.mk.inj (Option.some.inj h4)).1
    · rintro ⟨h2, _⟩
      exact absurd h2 hc

/-- Two shaped images with the same readable samples are the same value. -/
theorem Image.eq_of_shape (P Q : Image) (w h : Nat) (hP : P.Shape w h) (hQ : Q.Shape w h)
    (hsame : ∀ i j, i < h → j < w → P.get i j = Q.get i j) : P = Q := by
  obtain ⟨hPw, hPh, rp, hrp, hplen, hpall⟩ := hP
  obtain ⟨hQw, hQh, rq, hrq, hqlen, hqall⟩ := hQ
  have hrows : rp = rq := by
    apply List.ext_getElem (by omega)
    intro i h1 h2
    have hi : i < h := by omega
    have hl1 : (rp[i]).length = w := hpall _ (List.getElem_mem h1)
    have hl2 : (rq[i]).length = w := hqall _ (List.getElem_mem h2)
    apply List.ext_getElem (by omega)
    intro j h3 h4
    have hj : j < w := by omega
    have := hsame i j hi hj
    simp only [Image.get, hrp, hrq, List.getElem?_eq_getElem h1, List.getElem?_eq_getElem h2,
      List.getElem?_eq_getElem h3, List.getElem?_eq_getElem h4, Option.some.injEq] at this
    exact this
  obtain ⟨pd, pw, ph⟩ := P
  obtain ⟨qd, qw, qh⟩ := Q
  simp only at hPw hPh hQw hQh hrp hrq
  simp [hPw, hPh, hQw, hQh, hrp, hrq, hrows]

/-- C16: an overload of `getROI` returns false exactly when its bounds test
rejects the region, and the output image is then the one passed in, unchanged
in width, height and every sample. -/
theorem Image.getROI_false_untouched (A out R : Image) (r : Rectangle) (x y w h : Nat) :
    (A.getROI out r = some (false, R) ↔
      (((toU32 r.m_x + r.m_width) % 4294967296 > A.m_width ∨
        (toU32 r.m_y + r.m_height) % 4294967296 > A.m_height) ∧ R = out)) ∧
    (A.getROIxy out x y w h = some (false, R) ↔
      (((x + w) % 4294967296 > A.m_width ∨ (y + h) % 4294967296 > A.m_height) ∧ R = out)) :=
  ⟨by rw [Image.getROI_eq_getROIxy]; exact Image.getROIxy_false_iff _ _ _ _ _ _ _,
   Image.getROIxy_false_iff _ _ _ _ _ _ _⟩

/-- For an origin in [0, 2^31 - 1] the two overloads of `getROI` have the same
outcome; on a well-formed image and prior output, when `x + width` and
`y + height` stay below 2^32 and the region is rejected or has no row of zero
samples to allocate, that outcome is a returned boolean with an output image. -/
theorem Image.getROI_overloads_agree (A out : Image) (x y w h : Nat)
    (hx : x < 2147483648) (hy : y < 2147483648) :
    A.getROI out (Rectangle.mk (x : Int) (y : Int) w h) = A.getROIxy out x y w h ∧
    (A.WF → out.WF → x + w < 4294967296 → y + h < 4294967296 →
      (x + w > A.m_width ∨ y + h > A.m_height ∨ (w = 0 → h = 0)) →
      ∃ b R, A.getROIxy out x y w h = some (b, R)) := by
  constructor
  · rw [Image.getROI_eq_getROIxy]
    simp only [toU32_natCast x (by omega), toU32_natCast y (by omega)]
  · intro hA hout hxw hyh hok
    by_cases hc : (x + w) % 4294967296 > A.m_width ∨ (y + h) % 4294967296 > A.m_height
    · exact ⟨false, out, (Image.getROIxy_false_iff A out out x y w h).2 ⟨hc, rfl⟩⟩
    · rw [Nat.mod_eq_of_lt hxw, Nat.mod_eq_of_lt hyh] at hc
      have hwh : w = 0 → h = 0 := by
        rcases hok with h1 | h1 | h1
        · exact absurd (Or.inl h1) hc
        · exact absurd (Or.inr h1) hc
        · exact h1
      obtain ⟨R, hR, _⟩ := Image.getROIxy_inBounds A out x y w h hA.1 hA.2.1
        (fun i j hi hj => by
          obtain ⟨v, hv, _⟩ := hA.get_lt i j hi hj
          exact ⟨v, hv⟩)
        (by omega) (by omega) hwh hout.release_some
      exact ⟨true, R, hR⟩

/-- The two overloads on the region (1,0,1,2) of [[10,20],[30,40]]. -/
theorem Image.getROI_overloads_agree_witness :
    sampleImage.getROI Image.ctorDefault (Rectangle.mk 1 0 1 2)
      = sampleImage.getROIxy Image.ctorDefault 1 0 1 2 ∧
    sampleImage.getROIxy Image.ctorDefault 1 0 1 2
      = some (true, Image.mk (some [[20], [40]]) 1 2) :=
  ⟨(Image.getROI_overloads_agree sampleImage Image.ctorDefault 1 0 1 2
      (by decide) (by decide)).1, by decide⟩

/-- Composition of region extraction with translation: for a well-formed
image and prior outputs, `r1` inside the image and `r2` inside `r1`, both with
non-negative origin and neither with a row of zero samples to allocate,
extracting `r2` from the image extracted by `r1` succeeds and yields the same
image as extracting `r2 + Point(x1, y1)` directly. -/
theorem Image.getROI_compose (A out1 out2 out3 : Image) (x1 y1 w1 h1 x2 y2 w2 h2 : Nat)
    (hA : A.WF) (ho1 : out1.WF) (ho2 : out2.WF) (ho3 : out3.WF)
    (hwh1 : w1 = 0 → h1 = 0) (hwh2 : w2 = 0 → h2 = 0)
    (hx1 : x1 < 2147483648) (hy1 : y1 < 2147483648)
    (hx2 : x2 < 2147483648) (hy2 : y2 < 2147483648)
    (hxw1 : x1 + w1 ≤ A.m_width) (hyh1 : y1 + h1 ≤ A.m_height)
    (hxw2 : x2 + w2 ≤ w1) (hyh2 : y2 + h2 ≤ h1) :
    ∃ R1 R12 R2,
      A.getROI out1 (Rectangle.mk (x1 : Int) (y1 : Int) w1 h1) = some (true, R1) ∧
      R1.getROI out2 (Rectangle.mk (x2 : Int) (y2 : Int) w2 h2) = some (true, R12) ∧
      A.getROI out3 ((Rectangle.mk (x2 : Int) (y2 : Int) w2 h2).opAdd
        (Point.mk (x1 : Int) (y1 : Int))) = some (true, R2) ∧
      R12 = R2 ∧ R12.m_width = w2 ∧ R12.m_height = h2 := by
  have hAw := hA.1
  have hAh := hA.2.1
  have hAget : ∀ i j, i < A.m_height → j < A.m_width → ∃ v, A.get i j = some v := by
    intro i j hi hj
    obtain ⟨v, hv, _⟩ := hA.get_lt i j hi hj
    exact ⟨v, hv⟩
  obtain ⟨R1, hR1, hS1, hG1⟩ := Image.getROIxy_inBounds A out1 x1 y1 w1 h1 hAw hAh hAget
    hxw1 hyh1 hwh1 ho1.release_some
  have hR1w : R1.m_width = w1 := hS1.1
  have hR1h : R1.m_height = h1 := hS1.2.1
  obtain ⟨R12, hR12, hS12, hG12⟩ := Image.getROIxy_inBounds R1 out2 x2 y2 w2 h2
    (by omega) (by omega)
    (fun i j hi hj => Image.get_some R1 w1 h1 i j hS1 (by omega) (by omega))
    (by omega) (by omega) hwh2 ho2.release_some
  obtain ⟨R2, hR2, hS2, hG2⟩ := Image.getROIxy_inBounds A out3 (x1 + x2) (y1 + y2) w2 h2
    hAw hAh hAget (by omega) (by omega) hwh2 ho3.release_some
  have hux := toU32_wrapI32_add x1 x2 (by omega)
  have huy := toU32_wrapI32_add y1 y2 (by omega)
  refine ⟨R1, R12, R2, ?_, ?_, ?_, ?_, hS12.1, hS12.2.1⟩
  · rw [Image.getROI_eq_getROIxy]
    simp only [toU32_natCast x1 (by omega), toU32_natCast y1 (by omega)]
    exact hR1
  · rw [Image.getROI_eq_getROIxy]
    simp only [toU32_natCast x2 (by omega), toU32_natCast y2 (by omega)]
    exact hR12
  · rw [Image.getROI_eq_getROIxy]
    simp only [Rectangle.opAdd, hux, huy]
    exact hR2
  · apply Image.eq_of_shape R12 R2 w2 h2 hS12 hS2
    intro i j hi hj
    obtain ⟨v, hv, hv12⟩ := hG12 i j hi hj
    obtain ⟨u, hu, hu1⟩ := hG1 (y2 + i) (x2 + j) (by omega) (by omega)
    obtain ⟨z, hz, hz2⟩ := hG2 i j hi hj
    rw [hv12, hz2, ← hv, hu1, ← hu, ← hz, Nat.add_assoc, Nat.add_assoc]

/-- The region (0,1,1,1) of the region (1,0,1,2) of [[10,20],[30,40]] is the
region (1,1,1,1), the single sample 40. -/
theorem Image.getROI_compose_witness :
    ∃ R1 R12 R2,
      sampleImage.getROI Image.ctorDefault (Rectangle.mk 1 0 1 2) = some (true, R1) ∧
      R1.getROI Image.ctorDefault (Rectangle.mk 0 1 1 1) = some (true, R12) ∧
      sampleImage.getROI Image.ctorDefault ((Rectangle.mk 0 1 1 1).opAdd (Point.mk 1 0))
        = some (true, R2) ∧
      R12 = R2 ∧ R12.m_width = 1 ∧ R12.m_height = 1 :=
  Image.getROI_compose sampleImage Image.ctorDefault Image.ctorDefault Image.ctorDefault
    1 0 1 2 0 1 1 1 (by decide) (by decide) (by decide) (by decide) (by decide) (by decide)
    (by decide) (by decide) (by decide) (by decide) (by decide) (by decide) (by decide)
    (by decide)

/-- C20 fails on the code: with r1 = (0,0,2,2) inside the 2x2 image
[[10,20],[30,40]] and r2 = (0,0,0,1) inside r1, the first extraction returns
true with the whole image, but neither extracting r2 from it nor extracting
r2 + Point(0,0) from the image succeeds: both throw in the allocation of the
temporary `Image(0, 1)`. -/
theorem Image.getROI_compose_zero_width :
    sampleImage.WF ∧ 0 + 2 ≤ sampleImage.width ∧ 0 + 2 ≤ sampleImage.height ∧
    0 + 0 ≤ 2 ∧ 0 + 1 ≤ 2 ∧
    sampleImage.getROI Image.ctorDefault (Rectangle.mk 0 0 2 2) = some (true, sampleImage) ∧
    sampleImage.getROI Image.ctorDefault (Rectangle.mk 0 0 0 1) = none ∧
    sampleImage.getROI Image.ctorDefault ((Rectangle.mk 0 0 0 1).opAdd (Point.mk 0 0))
      = none := by
  decide

/-! ## Image state invariant and release -/

/-- A property that every defined iteration preserves holds after the loop. -/
theorem forLoop_preserves {σ : Type} (P : σ → Prop) (n : Nat) (body : Nat → σ → Option σ)
    (hstep : ∀ k u v, P u → body k u = some v → P v) :
    ∀ s t, P s → forLoop n body s = some t → P t := by
  induction n with
  | zero =>
    intro s t hs h
    simp only [forLoop, Option.some.injEq] at h
    rw [← h]
    exact hs
  | succ m ih =>
    intro s t hs h
    simp only [forLoop] at h
    rw [Option.bind_eq_some] at h
    obtain ⟨u, hu, hv⟩ := h
    exact hstep m u t (ih s u hs hu) hv

theorem Image.writeRow_data (u v : Image) (k : Nat) (bytes : List Nat)
    (h : u.writeRow k bytes = some v) : v.m_data ≠ none := by
  simp only [Image.writeRow] at h
  split at h
  · exact Option.noConfusion h
  · split at h
    · exact Option.noConfusion h
    · split at h
      · rw [← Option.some.inj h]
        simp
      · exact Option.noConfusion h

theorem Image.set_data (u v : Image) (i j x : Nat) (h : u.set i j x = some v) :
    v.m_data ≠ none := by
  simp only [Image.set] at h
  split at h
  · exact Option.noConfusion h
  · split at h
    · exact Option.noConfusion h
    · split at h
      · rw [← Option.some.inj h]
        simp
      · exact Option.noConfusion h

/-- The row-copy loop keeps the buffer of its destination allocated. -/
theorem copyLoop_data (other s t : Image) (n : Nat) (hs : s.m_data ≠ none)
    (h : forLoop n
      (fun i s => (other.readRow i s.m_width).bind (fun bytes => s.writeRow i bytes)) s
        = some t) : t.m_data ≠ none := by
  refine forLoop_preserves (fun (q : Image) => q.m_data ≠ none) n _ ?_ s t hs h
  intro k u v _ hv
  rw [Option.bind_eq_some] at hv
  obtain ⟨bytes, _, hw⟩ := hv
  exact Image.writeRow_data u v k bytes hw

theorem Image.ctorCopy_data (A B : Image) (h : Image.ctorCopy A = some B) :
    B.m_data ≠ none := by
  simp only [Image.ctorCopy] at h
  rw [Option.bind_eq_some] at h
  obtain ⟨s, hs, hl⟩ := h
  exact copyLoop_data A s B _ (Image.allocateMemory_data _ s hs).1 hl

theorem Image.opAssign_data (A B C : Image) (h : A.opAssign B = some C) :
    C.m_data ≠ none := by
  simp only [Image.opAssign] at h
  rw [Option.bind_eq_some] at h
  obtain ⟨s1, _, h2⟩ := h
  rw [Option.bind_eq_some] at h2
  obtain ⟨s2, hs2, hl⟩ := h2
  exact copyLoop_data B s2 C _ (Image.allocateMemory_data _ s2 hs2).1 hl

theorem Image.ones_data (w h : Nat) (R : Image) (hR : Image.ones w h = some R) :
    R.m_data ≠ none := by
  simp only [Image.ones] at hR
  rw [Option.bind_eq_some] at hR
  obtain ⟨s, hs, hl⟩ := hR
  refine forLoop_preserves (fun (q : Image) => q.m_data ≠ none) h _ ?_ s R
    (Image.allocateMemory_data _ s hs).1 hl
  intro k u v _ hv
  exact Image.writeRow_data u v k _ hv

/-- The output of the raw `getROI` overload is either the image passed in or
an image with an allocated buffer. -/
theorem Image.getROIxy_data (A out R : Image) (x y w h : Nat) (b : Bool)
    (hR : A.getROIxy out x y w h = some (b, R)) : R = out ∨ R.m_data ≠ none := by
  by_cases hc : (x + w) % 4294967296 > A.m_width ∨ (y + h) % 4294967296 > A.m_height
  · left
    simp only [Image.getROIxy, if_pos hc, Option.some.injEq, Prod.mk.injEq] at hR
    exact hR.2.symm
  · right
    simp only [Image.getROIxy, if_neg hc, Option.bind_eq_bind, Option.bind_eq_some] at hR
    obtain ⟨tmp, _, r0, h3, r1, h4, h5⟩ := hR
    have hr1 : r1.m_data ≠ none := by
      refine forLoop_preserves (fun (q : Image) => q.m_data ≠ none) h _ ?_ r0 r1
        (Image.opAssign_data _ _ _ h3) h4
      intro i u v hu hv
      refine forLoop_preserves (fun (q : Image) => q.m_data ≠ none) w _ ?_ u v hu hv
      intro j p q _ hq
      rw [Option.bind_eq_some] at hq
      obtain ⟨val, _, hset⟩ := hq
      exact Image.set_data p q i j val hset
    rw [← (Prod.mk.inj (Option.some.inj h5)).2]
    exact hr1

/-- Every image obtainable through the constructors, copy, assignment,
`zeros`, `ones`, `getROI` and `release` has zero dimensions when its buffer is
null. -/
theorem Image.Reach.null_zero (A : Image) (hA : Image.Reach false A) :
    A.m_data = none → A.m_width = 0 ∧ A.m_height = 0 := by
  induction hA with
  | default => intro _; exact ⟨rfl, rfl⟩
  | sized w h R _ _ hR => intro hn; exact absurd hn (Image.allocateMemory_data _ R hR).1
  | copy A B _ hB _ => intro hn; exact absurd hn (Image.ctorCopy_data A B hB)
  | assign A B C _ _ hC _ _ => intro hn; exact absurd hn (Image.opAssign_data A B C hC)
  | zeros w h R _ _ hR => intro hn; exact absurd hn (Image.allocateMemory_data _ R hR).1
  | ones w h R _ _ hR => intro hn; exact absurd hn (Image.ones_data w h R hR)
  | roi A out R r b _ _ _ hR _ ihout =>
    intro hn
    rw [Image.getROI_eq_getROIxy] at hR
    rcases Image.getROIxy_data A out R _ _ _ _ b hR with h1 | h1
    · rw [h1] at hn ⊢
      exact ihout hn
    · exact absurd hn h1
  | roixy A out R x y w h b _ _ _ _ _ _ hR _ ihout =>
    intro hn
    rcases Image.getROIxy_data A out R x y w h b hR with h1 | h1
    · rw [h1] at hn ⊢
      exact ihout hn
    · exact absurd hn h1
  | release A R _ hR ih =>
    intro hn
    cases hd : A.m_data with
    | none =>
      simp only [Image.release, hd, Option.some.injEq] at hR
      rw [← hR]
      exact ih hd
    | some rows =>
      simp only [Image.release, hd] at hR
      split at hR
      · rw [← Option.some.inj hR]
        exact ⟨rfl, rfl⟩
      · exact Option.noConfusion hR
  | load A R file maxVal0 b hl _ _ _ => exact Bool.noConfusion hl

/-- C12 as stated fails: `Image(0, 0)` is obtainable and has a non-null
buffer (`isEmpty()` is false) although its width and height are 0. -/
theorem Image.sized_zero_not_empty :
    Image.ctorSize 0 0 = some (Image.blank 0 0) ∧
    Image.Reach false (Image.blank 0 0) ∧
    (Image.blank 0 0).isEmpty = false ∧
    (Image.blank 0 0).width = 0 ∧ (Image.blank 0 0).height = 0 ∧
    ¬ ((Image.blank 0 0).isEmpty = false ↔
        (0 < (Image.blank 0 0).width ∧ 0 < (Image.blank 0 0).height)) :=
  ⟨by decide, Image.Reach.sized 0 0 _ (by decide) (by decide) (by decide), by decide,
    by decide, by decide, by decide⟩

/-- C12 (amended): for every image obtainable through the default and sized
constructors, copy construction, copy assignment, `zeros`, `ones`, `getROI`
and `release`, a null buffer implies width 0 and height 0, so positive width
and height imply a non-null buffer; a default-constructed image has a null
buffer and zero dimensions. -/
theorem Image.buffer_invariant (A : Image) (hA : Image.Reach false A) :
    (A.isEmpty = true → A.width = 0 ∧ A.height = 0) ∧
    ((0 < A.width ∧ 0 < A.height) → A.isEmpty = false) ∧
    (Image.ctorDefault.isEmpty = true ∧ Image.ctorDefault.width = 0 ∧
      Image.ctorDefault.height = 0) := by
  have hz := Image.Reach.null_zero A hA
  refine ⟨?_, ?_, rfl, rfl, rfl⟩
  · intro he
    simp only [Image.isEmpty, Option.isNone_iff_eq_none] at he
    exact hz he
  · intro hpos
    cases hd : A.m_data with
    | none =>
      have := hz hd
      simp only [Image.width, Image.height] at hpos
      omega
    | some rows => simp [Image.isEmpty, hd]

/-- Witness for the amended C12 on `Image(2, 2)`. -/
theorem Image.buffer_invariant_witness :
    Image.ctorSize 2 2 = some (Image.blank 2 2) ∧
    ((Image.blank 2 2).isEmpty = true →
      (Image.blank 2 2).width = 0 ∧ (Image.blank 2 2).height = 0) ∧
    ((0 < (Image.blank 2 2).width ∧ 0 < (Image.blank 2 2).height) →
      (Image.blank 2 2).isEmpty = false) ∧
    (Image.ctorDefault.isEmpty = true ∧ Image.ctorDefault.width = 0 ∧
      Image.ctorDefault.height = 0) :=
  ⟨by decide, Image.buffer_invariant (Image.blank 2 2)
    (Image.Reach.sized 2 2 _ (by decide) (by decide) (by decide))⟩

/-- Release of a well-formed image is defined and resets it: width 0, height
0 and a null buffer; and release of an image with a null buffer leaves it
unchanged. -/
theorem Image.release_spec (A : Image) :
    (A.WF → ∃ R, A.release = some R ∧ R.width = 0 ∧ R.height = 0 ∧ R.isEmpty = true) ∧
    (A.isEmpty = true → A.release = some A) := by
  constructor
  · intro hwf
    obtain ⟨R, hR⟩ := hwf.release_some
    refine ⟨R, hR, ?_⟩
    obtain ⟨_, _, _, h3⟩ := hwf
    cases hd : A.m_data with
    | none =>
      rw [hd] at h3
      simp only [Image.release, hd, Option.some.injEq] at hR
      rw [← hR]
      simp [Image.width, Image.height, Image.isEmpty, hd, h3.1, h3.2]
    | some rows =>
      simp only [Image.release, hd] at hR
      split at hR
      · rw [← Option.some.inj hR]
        simp [Image.width, Image.height, Image.isEmpty]
      · exact Option.noConfusion hR
  · intro he
    simp only [Image.isEmpty, Option.isNone_iff_eq_none] at he
    simp [Image.release, he]

/-- C14 fails on the code: `load` of the bytes "P5\n3 3\n300\n" into a fresh
image returns false after storing width 3 and height 3 with the buffer still
null; `release` then finds a null buffer and resets nothing, so the width and
height stay 3. -/
theorem Image.release_after_failed_load :
    Image.ctorDefault.load (some [80, 53, 10, 51, 32, 51, 10, 51, 48, 48, 10]) 0
      = some (false, Image.mk none 3 3) ∧
    Image.Reach true (Image.mk none 3 3) ∧
    (Image.mk none 3 3).release = some (Image.mk none 3 3) ∧
    (Image.mk none 3 3).isEmpty = true ∧
    (Image.mk none 3 3).width = 3 ∧ (Image.mk none 3 3).height = 3 :=
  ⟨by decide,
   Image.Reach.load Image.ctorDefault (Image.mk none 3 3)
     (some [80, 53, 10, 51, 32, 51, 10, 51, 48, 48, 10]) 0 false rfl Image.Reach.default
     (by decide),
   by decide, by decide, by decide, by decide⟩

/-! ## Deep copy on the free store -/

theorem Heap.bufLen_eq_some (H : Heap) (a w : Nat) (h : H.bufLen a = some w) :
    ∃ r, H.bufs[a]? = some (some r) ∧ r.length = w := by
  simp only [Heap.bufLen] at h
  split at h
  · rename_i r hr
    exact ⟨r, hr, Option.some.inj h⟩
  · exact Option.noConfusion h

theorem Heap.bufLen_congr (H K : Heap) (a : Nat) (h : K.bufs[a]? = H.bufs[a]?) :
    K.bufLen a = H.bufLen a := by
  simp only [Heap.bufLen, h]

theorem Heap.lt_of_bufLen (H : Heap) (a w : Nat) (h : H.bufLen a = some w) :
    a < H.bufs.length := by
  obtain ⟨r, hr, _⟩ := H.bufLen_eq_some a w h
  by_contra hge
  rw [List.getElem?_eq_none (by omega)] at hr
  exact Option.noConfusion hr

/-- What an object reads through `at` depends only on its own table and on
the rows the table points to. -/
theorem ImagePtr.atRead_congr (A : ImagePtr) (H K : Heap) (tA : Nat) (tblA : List Nat)
    (hd : A.m_data = some tA) (ht : H.tables[tA]? = some (some tblA))
    (hk : K.tables[tA]? = some (some tblA))
    (hb : ∀ a ∈ tblA, K.bufs[a]? = H.bufs[a]?) (x y : Nat) :
    A.atRead K x y = A.atRead H x y := by
  simp only [ImagePtr.atRead, hd, Option.bind_eq_bind, Option.some_bind, Heap.rowPtr, ht, hk]
  cases hy : tblA[y]? with
  | none => rfl
  | some a =>
    simp only [Option.some_bind, Heap.readByte, hb a (List.getElem?_mem hy)]

/-- An in-range read through an owning object is the sample stored in the
row its table points to. -/
theorem ImagePtr.Owns.atRead_eq (A : ImagePtr) (H : Heap) (tA : Nat) (tblA : List Nat)
    (hA : A.Owns H tA tblA) (x y : Nat) (hx : x < A.m_width) (hy : y < A.m_height) :
    ∃ a r v, tblA[y]? = some a ∧ H.bufs[a]? = some (some r) ∧ r.length = A.m_width ∧
      r[x]? = some v ∧ A.atRead H x y = some v := by
  obtain ⟨hd, ht, hlen, _, _, hrows⟩ := hA
  have hy' : y < tblA.length := by omega
  have hay : tblA[y]? = some tblA[y] := List.getElem?_eq_getElem hy'
  obtain ⟨r, hr, hrl⟩ := H.bufLen_eq_some _ _ (hrows _ (List.getElem_mem hy'))
  have hx' : x < r.length := by omega
  refine ⟨tblA[y], r, r[x], hay, hr, hrl, List.getElem?_eq_getElem hx', ?_⟩
  simp only [ImagePtr.atRead, hd, Option.bind_eq_bind, Option.some_bind, Heap.rowPtr, ht, hay,
    Heap.readByte, hr, List.getElem?_eq_getElem hx']

/-- Objects that own disjoint rows are isolated: a pixel write through one is
defined, stores its value, and is invisible through the other. -/
theorem ImagePtr.isolated_of_owns (A B : ImagePtr) (H : Heap) (tA tB : Nat)
    (tblA tblB : List Nat) (hA : A.Owns H tA tblA) (hB : B.Owns H tB tblB)
    (hdis : ∀ a ∈ tblB, a ∉ tblA) : ImagePtr.IsolatedFrom A B H := by
  intro x y v hx hy
  obtain ⟨a, r, _, hay, hr, hrl, _, _⟩ := ImagePtr.Owns.atRead_eq B H tB tblB hB x y hx hy
  obtain ⟨hBd, hBt, _, _, _⟩ := hB
  have hx' : x < r.length := by omega
  have ha : a < H.bufs.length := by
    by_contra hge
    rw [List.getElem?_eq_none (by omega)] at hr
    exact Option.noConfusion hr
  refine ⟨{ H with bufs := H.bufs.set a (some (r.set x v)) }, ?_, ?_, ?_⟩
  · simp only [ImagePtr.atWrite, hBd, Option.bind_eq_bind, Option.some_bind, Heap.rowPtr, hBt,
      hay, Heap.writeByte, hr, if_pos hx']
  · simp only [ImagePtr.atRead, hBd, Option.bind_eq_bind, Option.some_bind, Heap.rowPtr, hBt,
      hay, Heap.readByte, List.getElem?_set_self ha, List.getElem?_set_self hx']
  · refine ImagePtr.atRead_congr A H { H with bufs := H.bufs.set a (some (r.set x v)) }
      tA tblA hA.1 hA.2.1 hA.2.1 ?_
    intro a' ha'
    have hne : a ≠ a' := by
      intro he
      exact hdis a (List.getElem?_mem hay) (he ▸ ha')
    exact List.getElem?_set_ne hne

/-- The copy loop into a freshly allocated buffer is defined; it leaves the
tables and every older row as they were and makes the i-th new row equal to
the i-th source row. -/
theorem ImagePtr.copyRows_fresh (A : ImagePtr) (H : Heap) (tA : Nat) (tblA : List Nat)
    (hA : A.Owns H tA tblA) :
    ∃ H2, ImagePtr.copyRows (ImagePtr.mk (some H.tables.length) A.m_width A.m_height) A
        { bufs := H.bufs ++ List.replicate A.m_height (some (List.replicate A.m_width 0)),
          tables := H.tables ++
            [some ((List.range A.m_height).map (fun i => H.bufs.length + i))] } = some H2 ∧
      H2.tables = H.tables ++
        [some ((List.range A.m_height).map (fun i => H.bufs.length + i))] ∧
      (∀ a, a < H.bufs.length → H2.bufs[a]? = H.bufs[a]?) ∧
      (∀ i a, i < A.m_height → tblA[i]? = some a →
        H2.bufs[H.bufs.length + i]? = H.bufs[a]?) := by
  obtain ⟨hd, ht, hlen, _, _, hrows⟩ := hA
  have htA : tA < H.tables.length := by
    by_contra hge
    rw [List.getElem?_eq_none (by omega)] at ht
    exact Option.noConfusion ht
  have loop := forLoop_inv
    (fun k (K : Heap) =>
      K.tables = H.tables ++
        [some ((List.range A.m_height).map (fun i => H.bufs.length + i))] ∧
      K.bufs.length = H.bufs.length + A.m_height ∧
      (∀ a, a < H.bufs.length → K.bufs[a]? = H.bufs[a]?) ∧
      (∀ i, i < A.m_height → K.bufLen (H.bufs.length + i) = some A.m_width) ∧
      (∀ i a, i < k → tblA[i]? = some a → K.bufs[H.bufs.length + i]? = H.bufs[a]?))
    A.m_height
    (fun i (K : Heap) => do
      let srcTable ← A.m_data
      let src ← K.rowPtr srcTable i
      let dstTable ← (ImagePtr.mk (some H.tables.length) A.m_width A.m_height).m_data
      let dst ← K.rowPtr dstTable i
      let bytes ← K.readBuf src (ImagePtr.mk (some H.tables.length) A.m_width A.m_height).m_width
      K.writeBuf dst bytes)
    { bufs := H.bufs ++ List.replicate A.m_height (some (List.replicate A.m_width 0)),
      tables := H.tables ++
        [some ((List.range A.m_height).map (fun i => H.bufs.length + i))] }
    (by
      refine ⟨rfl, by simp, ?_, ?_, ?_⟩
      · intro a ha
        exact List.getElem?_append_left ha
      · intro i hi
        have hnew : (H.bufs ++ List.replicate A.m_height
            (some (List.replicate A.m_width 0)))[H.bufs.length + i]?
              = some (some (List.replicate A.m_width 0)) := by
          rw [List.getElem?_append_right (Nat.le_add_right _ _), Nat.add_sub_cancel_left,
            List.getElem?_replicate_of_lt hi]
        simp only [Heap.bufLen, hnew, List.length_replicate]
      · intro i a hi _
        exact absurd hi (Nat.not_lt_zero _))
    (by
      intro k hk K ⟨hT, hL, hOld, hLen, hDone⟩
      have hk' : k < tblA.length := by omega
      have hak : tblA[k]? = some tblA[k] := List.getElem?_eq_getElem hk'
      have hmem : tblA[k] ∈ tblA := List.getElem_mem hk'
      obtain ⟨r, hr, hrl⟩ := H.bufLen_eq_some _ _ (hrows _ hmem)
      have hakb : tblA[k] < H.bufs.length := H.lt_of_bufLen _ _ (hrows _ hmem)
      have hsrc : K.rowPtr tA k = some tblA[k] := by
        simp only [Heap.rowPtr, hT, List.getElem?_append_left htA, ht, hak]
      have hdst : K.rowPtr H.tables.length k = some (H.bufs.length + k) := by
        simp [Heap.rowPtr, hT, List.getElem?_range hk]
      have hread : K.readBuf tblA[k] A.m_width = some r := by
        simp [Heap.readBuf, hOld _ hakb, hr, hrl]
      obtain ⟨r', hr', hrl'⟩ := K.bufLen_eq_some _ _ (hLen k hk)
      have hkb : H.bufs.length + k < K.bufs.length := by omega
      have hwrite : K.writeBuf (H.bufs.length + k) r
          = some { K with bufs := K.bufs.set (H.bufs.length + k) (some r) } := by
        have hdrop : List.drop r.length r' = [] := by
          rw [List.drop_eq_nil_iff]; omega
        simp only [Heap.writeBuf, hr']
        rw [if_pos (by omega), hdrop, List.append_nil]
      refine ⟨{ K with bufs := K.bufs.set (H.bufs.length + k) (some r) }, ?_, hT, ?_, ?_, ?_, ?_⟩
      · simp only [hd, Option.bind_eq_bind, Option.some_bind, hsrc, hdst, hread, hwrite]
      · simp [hL]
      · intro a ha
        rw [List.getElem?_set_ne (by omega)]
        exact hOld a ha
      · intro i hi
        by_cases hik : i = k
        · subst hik
          simp [Heap.bufLen, List.getElem?_set_self hkb, hrl]
        · rw [Heap.bufLen_congr K _ _ (List.getElem?_set_ne (by omega))]
          exact hLen i hi
      · intro i a hi hia
        by_cases hik : i = k
        · subst hik
          rw [hak] at hia
          rw [← Option.some.inj hia, List.getElem?_set_self hkb, hr]
        · rw [List.getElem?_set_ne (by omega)]
          exact hDone i a (by omega) hia)
  obtain ⟨H2, hH2, hT, _, hOld, _, hDone⟩ := loop
  exact ⟨H2, hH2, hT, hOld, hDone⟩

/-- Copy construction on the free store yields an independent copy. -/
theorem ImagePtr.ctorCopy_deepCopy (A : ImagePtr) (H : Heap) (tA : Nat) (tblA : List Nat)
    (hA : A.Owns H tA tblA) :
    ∃ B H1, ImagePtr.ctorCopy A H = some (B, H1) ∧ ImagePtr.DeepCopy A H B H1 := by
  obtain ⟨H2, hH2, hT, hOld, hNew⟩ := ImagePtr.copyRows_fresh A H tA tblA hA
  have hA' := hA
  obtain ⟨hd, ht, hlen, hnd, hwh, hrows⟩ := hA
  have htA : tA < H.tables.length := by
    by_contra hge
    rw [List.getElem?_eq_none (by omega)] at ht
    exact Option.noConfusion ht
  have hlt : ∀ a ∈ tblA, a < H.bufs.length := fun a ha => H.lt_of_bufLen _ _ (hrows a ha)
  have hA2 : A.Owns H2 tA tblA := by
    refine ⟨hd, ?_, hlen, hnd, hwh, ?_⟩
    · rw [hT, List.getElem?_append_left htA]
      exact ht
    · intro a ha
      rw [Heap.bufLen_congr H H2 a (hOld a (hlt a ha))]
      exact hrows a ha
  have hB2 : (ImagePtr.mk (some H.tables.length) A.m_width A.m_height).Owns H2 H.tables.length
      ((List.range A.m_height).map (fun i => H.bufs.length + i)) := by
    refine ⟨rfl, ?_, by simp, ?_, hwh, ?_⟩
    · rw [hT]
      simp
    · exact List.Nodup.map (fun i j hij => by simpa using hij) (List.nodup_range _)
    · intro a ha
      rw [List.mem_map] at ha
      obtain ⟨i, hi, rfl⟩ := ha
      rw [List.mem_range] at hi
      have hi' : i < tblA.length := by omega
      have hrow := hrows _ (List.getElem_mem hi')
      simp only [Heap.bufLen] at hrow ⊢
      rw [hNew i tblA[i] hi (List.getElem?_eq_getElem hi')]
      exact hrow
  have hdis : ∀ a ∈ (List.range A.m_height).map (fun i => H.bufs.length + i), a ∉ tblA := by
    intro a ha hmem
    rw [List.mem_map] at ha
    obtain ⟨i, _, rfl⟩ := ha
    have := hlt _ hmem
    omega
  refine ⟨ImagePtr.mk (some H.tables.length) A.m_width A.m_height, H2, ?_, rfl, rfl, ?_,
    ImagePtr.isolated_of_owns _ _ H2 _ _ _ _ hA2 hB2 hdis,
    ImagePtr.isolated_of_owns _ _ H2 _ _ _ _ hB2 hA2 (fun a ha hb => hdis a hb ha)⟩
  · have hc : ¬ (A.m_width = 0 ∧ 0 < A.m_height) :=
      fun hc => absurd (hwh hc.1) (Nat.pos_iff_ne_zero.mp hc.2)
    simp only [ImagePtr.ctorCopy, ImagePtr.allocateMemory, if_neg hc, Option.some_bind, hH2,
      Option.map_some']
  · intro x y hx hy
    obtain ⟨a, r, v, hay, hr, hrl, hv, hread⟩ := ImagePtr.Owns.atRead_eq A H tA tblA hA' x y hx hy
    refine ⟨v, hread, ?_, ?_⟩
    · rw [ImagePtr.atRead_congr A H H2 tA tblA hd ht hA2.2.1
        (fun a ha => hOld a (hlt a ha))]
      exact hread
    · have hrow : ((List.range A.m_height).map (fun i => H.bufs.length + i))[y]?
          = some (H.bufs.length + y) := by
        simp [List.getElem?_range hy]
      simp only [ImagePtr.atRead, Option.bind_eq_bind, Option.some_bind, Heap.rowPtr, hB2.2.1,
        hrow, Heap.readByte, hNew y a hy hay, hr, hv]

/-- Release of an owning object is defined; it deletes the object's table and
rows and leaves every other row as it was. -/
theorem ImagePtr.release_owned (B0 : ImagePtr) (H : Heap) (tB : Nat) (tblB : List Nat)
    (hB : B0.Owns H tB tblB) :
    ∃ q H0, B0.release H = some (q, H0) ∧ H0.tables = H.tables.set tB none ∧
      ∀ a, a ∉ tblB → H0.bufs[a]? = H.bufs[a]? := by
  obtain ⟨hd, ht, hlen, hnd, _, hrows⟩ := hB
  have loop := forLoop_inv
    (fun k (K : Heap) => K.tables = H.tables ∧
      ∀ a, a ∉ tblB.take k → K.bufs[a]? = H.bufs[a]?)
    B0.m_height
    (fun i (K : Heap) => (K.rowPtr tB i).bind (fun a => K.freeBuf a)) H
    ⟨rfl, fun _ _ => rfl⟩
    (by
      intro k hk K ⟨hT, hSame⟩
      have hk' : k < tblB.length := by omega
      have hak : tblB[k]? = some tblB[k] := List.getElem?_eq_getElem hk'
      have hfresh : tblB[k] ∉ tblB.take k := by
        intro hmem
        rw [List.mem_take_iff_getElem] at hmem
        obtain ⟨i, hi, heq⟩ := hmem
        have hik : i = k := (List.Nodup.getElem_inj_iff hnd).1 heq
        omega
      obtain ⟨r, hr, _⟩ := H.bufLen_eq_some _ _ (hrows _ (List.getElem_mem hk'))
      have hrow : K.rowPtr tB k = some tblB[k] := by
        simp only [Heap.rowPtr, hT, ht, hak]
      have hfree : K.freeBuf tblB[k] = some { K with bufs := K.bufs.set tblB[k] none } := by
        simp only [Heap.freeBuf, hSame _ hfresh, hr]
      refine ⟨{ K with bufs := K.bufs.set tblB[k] none }, ?_, hT, ?_⟩
      · simp only [hrow, Option.some_bind, hfree]
      · intro a ha
        rw [List.take_succ, hak, List.mem_append] at ha
        have h1 : a ∉ tblB.take k := fun h => ha (Or.inl h)
        have h2 : tblB[k] ≠ a := by
          intro h
          exact ha (Or.inr (by simp [h]))
        rw [List.getElem?_set_ne h2]
        exact hSame a h1)
  obtain ⟨H1, hH1, hT, hSame⟩ := loop
  rw [← hlen, List.take_length] at hSame
  refine ⟨{ m_data := none, m_width := 0, m_height := 0 },
    { H1 with tables := H1.tables.set tB none }, ?_, by simp [hT], hSame⟩
  simp only [ImagePtr.release, hd, hH1, Option.some_bind, Heap.freeTable, hT, ht, Option.map_some']

/-- Copy assignment is release of the destination followed by the work of the
copy constructor. -/
theorem ImagePtr.opAssign_eq (B0 A q : ImagePtr) (H H0 : Heap)
    (hrel : B0.release H = some (q, H0)) : B0.opAssign A H = ImagePtr.ctorCopy A H0 := by
  simp only [ImagePtr.opAssign, hrel, Option.some_bind, ImagePtr.ctorCopy,
    ImagePtr.allocateMemory]

/-- C11: deep-copy isolation.  For an image `A` that owns its buffer, the copy
made by the copy constructor, and the copy made by copy assignment onto an
object `B0` that is empty or owns a separate buffer, has the same width,
height and samples as `A`; writing any in-range pixel of the copy leaves every
sample of `A` unchanged, and writing any in-range pixel of `A` leaves every
sample of the copy unchanged. -/
theorem ImagePtr.deep_copy_isolation (A B0 : ImagePtr) (H : Heap) (tA : Nat)
    (tblA : List Nat) (hA : A.Owns H tA tblA)
    (hB0 : B0.m_data = none ∨
      ∃ tB tblB, B0.Owns H tB tblB ∧ tB ≠ tA ∧ ∀ a ∈ tblB, a ∉ tblA) :
    (∃ B H1, ImagePtr.ctorCopy A H = some (B, H1) ∧ ImagePtr.DeepCopy A H B H1) ∧
    (∃ B H1, B0.opAssign A H = some (B, H1) ∧ ImagePtr.DeepCopy A H B H1) := by
  refine ⟨ImagePtr.ctorCopy_deepCopy A H tA tblA hA, ?_⟩
  rcases hB0 with hnull | ⟨tB, tblB, hB, hne, hdis⟩
  · have hrel : B0.release H = some (B0, H) := by
      simp only [ImagePtr.release, hnull]
    rw [ImagePtr.opAssign_eq B0 A B0 H H hrel]
    exact ImagePtr.ctorCopy_deepCopy A H tA tblA hA
  · obtain ⟨q, H0, hrel, hT, hSame⟩ := ImagePtr.release_owned B0 H tB tblB hB
    have hkeep : ∀ a ∈ tblA, H0.bufs[a]? = H.bufs[a]? :=
      fun a ha => hSame a (fun hb => hdis a hb ha)
    have htab : H0.tables[tA]? = some (some tblA) := by
      rw [hT, List.getElem?_set_ne hne]
      exact hA.2.1
    have hA0 : A.Owns H0 tA tblA := by
      refine ⟨hA.1, htab, hA.2.2.1, hA.2.2.2.1, hA.2.2.2.2.1, ?_⟩
      intro a ha
      rw [Heap.bufLen_congr H H0 a (hkeep a ha)]
      exact hA.2.2.2.2.2 a ha
    obtain ⟨B, H1, hcopy, hw, hh, hsame, hiso1, hiso2⟩ :=
      ImagePtr.ctorCopy_deepCopy A H0 tA tblA hA0
    refine ⟨B, H1, ?_, hw, hh, ?_, hiso1, hiso2⟩
    · rw [ImagePtr.opAssign_eq B0 A q H H0 hrel]
      exact hcopy
    · intro x y hx hy
      obtain ⟨v, h1, h2, h3⟩ := hsame x y hx hy
      refine ⟨v, ?_, h2, h3⟩
      rw [← ImagePtr.atRead_congr A H H0 tA tblA hA.1 hA.2.1 htab hkeep x y]
      exact h1

/-- Witness for C11: on a free store holding [[10,20],[30,40]] and a second
2x2 image, the first is copied by the copy constructor and assigned to the
second. -/
theorem ImagePtr.deep_copy_isolation_witness :
    (∃ B H1, ImagePtr.ctorCopy sampleImagePtr
        (Heap.mk [some [10, 20], some [30, 40], some [1, 2], some [3, 4]]
          [some [0, 1], some [2, 3]]) = some (B, H1) ∧
      ImagePtr.DeepCopy sampleImagePtr
        (Heap.mk [some [10, 20], some [30, 40], some [1, 2], some [3, 4]]
          [some [0, 1], some [2, 3]]) B H1) ∧
    (∃ B H1, (ImagePtr.mk (some 1) 2 2).opAssign sampleImagePtr
        (Heap.mk [some [10, 20], some [30, 40], some [1, 2], some [3, 4]]
          [some [0, 1], some [2, 3]]) = some (B, H1) ∧
      ImagePtr.DeepCopy sampleImagePtr
        (Heap.mk [some [10, 20], some [30, 40], some [1, 2], some [3, 4]]
          [some [0, 1], some [2, 3]]) B H1) :=
  ImagePtr.deep_copy_isolation sampleImagePtr (ImagePtr.mk (some 1) 2 2)
    (Heap.mk [some [10, 20], some [30, 40], some [1, 2], some [3, 4]]
      [some [0, 1], some [2, 3]]) 0 [0, 1]
    (by decide) (Or.inr ⟨1, [2, 3], by decide, by decide, by decide⟩)

end ImageApp
